import Mathlib

/-!
Verification of the News_Feeder story-correlation engine.

This file gives a shallow embedding, in Lean 4, of the correlation core of
the repository:

* `src/processors/story_correlator.py` — the entity/regex scorer
  (`extract_entities`, `calculate_story_similarity`), the bounded seeded-growth
  cluster builder (`find_story_clusters`, `_split_large_cluster`) and the
  connection index (`identify_connections`);
* `src/correlators/story_correlator.py` — the weighted general-mode scorer
  (`_calculate_story_similarity` and its component similarities), the
  relationship scan (`_find_relationships`), the connected-components builder
  (`_create_clusters`) and the driver (`find_related_stories`);
* `src/processors/nlp_processor.py` — the non-model fallbacks
  (`_extract_entities_basic`, `_simple_similarity`).

Python floats are modelled as exact rationals (all quantities involved are
ratios of small naturals, so no rounding behaviour is relevant to the claims),
Python sets of strings as `Finset String`, and the regex matching of the fixed
entity-pattern catalogue by an explicit matcher over `List Char` whose
semantics (case-insensitive literal alternation between word boundaries,
leftmost non-overlapping scan, first-alternative-wins) mirrors `re.findall`
on exactly the patterns appearing in the source.
-/

/- The arithmetic of `Rat` in this toolchain hides `add`/`mul`/`inv`/`sub`
behind `irreducible`; restore default reducibility so that concrete witnesses
can be checked by `decide`. -/
set_option allowUnsafeReducibility true
attribute [semireducible] Rat.add Rat.mul Rat.inv Rat.sub
set_option maxRecDepth 8192

/-! ## Character-level utilities (Python `re` on ASCII text) -/

/-- Python's `\w` on the ASCII inputs handled by the engine: letters, digits
and underscore. -/
def isWordChar (c : Char) : Bool := c.isAlpha || c.isDigit || c = '_'

/-- Python's `\s` (ASCII whitespace). -/
def isWsChar (c : Char) : Bool :=
  c = ' ' || c = '\t' || c = '\n' || c = '\r' || c = '\x0b' || c = '\x0c'

/-- A character of the class `[\s-]` used by the pattern catalogue. -/
def isSepChar (c : Char) : Bool := isWsChar c || c = '-'

/-- Accumulator form of `re.findall(r'\w+', ·)`: maximal runs of word
characters, in order. -/
def wordRunsAux : List Char → List Char → List (List Char)
  | [], acc => if acc = [] then [] else [acc.reverse]
  | c :: cs, acc =>
    if isWordChar c then wordRunsAux cs (c :: acc)
    else if acc = [] then wordRunsAux cs [] else acc.reverse :: wordRunsAux cs []

/-- `re.findall(r'\w+', text)`: the maximal word-character runs of `text`. -/
def wordRuns (cs : List Char) : List (List Char) := wordRunsAux cs []

/-- `str.lower` on ASCII text. -/
def lowerChars (cs : List Char) : List Char := cs.map Char.toLower

/-- The stop-word list removed before the bag-of-words overlap in
`calculate_story_similarity`. -/
def similarityStopWords : List String :=
  ["the", "a", "an", "and", "or", "but", "in", "on", "at", "to", "for",
   "of", "with", "by", "from", "up", "about", "into", "through", "during"]

/-- `set(re.findall(r'\w+', text.lower())) - stop_words`: the
stop-word-filtered bag of words of a story text. -/
def wordsOfStr (t : String) : Finset String :=
  ((wordRuns (lowerChars t.data)).map fun r => String.mk r).toFinset \
    similarityStopWords.toFinset

/-- `len(words1 & words2) / max(len(words1 | words2), 1)`. -/
def wordOverlap (w1 w2 : Finset String) : ℚ :=
  ((w1 ∩ w2).card : ℚ) / ((max (w1 ∪ w2).card 1 : ℕ) : ℚ)

/-! ## The entity-pattern matcher

Every pattern of `StoryCorrelator.entity_patterns` has the shape
`\b(alt₁|alt₂|…)\b` compiled with `re.IGNORECASE`, where each alternative is a
sequence of the following atoms. `re.findall` scans left to right without
overlap; at each position the alternatives are tried in order and the first
one that matches (word boundaries included) wins. Inner backtracking is
immaterial for these particular atoms (shrinking a greedy `\d*`, `\d{a,b}`,
`s?` or `[\s-]?` always leaves a word character, respectively a non-letter,
in a position that fails anyway), so a greedy matcher is exact here. -/

/-- One atom of a pattern alternative. -/
inductive PTok where
  | lit : String → PTok
  | digitStar : PTok
  | digitRange : ℕ → ℕ → PTok
  | sepOpt : PTok
  | sOpt : PTok

/-- Case-insensitive literal match; returns the consumed original characters
and the rest. -/
def litMatch : List Char → List Char → Option (List Char × List Char)
  | [], cs => some ([], cs)
  | _ :: _, [] => none
  | p :: ps, c :: cs =>
    if c.toLower = p.toLower then
      (litMatch ps cs).map fun ar => (c :: ar.1, ar.2)
    else none

/-- Split off the maximal leading run of digits. -/
def takeDigits : List Char → List Char × List Char
  | [] => ([], [])
  | c :: cs =>
    if c.isDigit then
      let ar := takeDigits cs
      (c :: ar.1, ar.2)
    else ([], c :: cs)

/-- Greedy matcher for one alternative: returns the consumed characters (in
original case, as `re.findall` captures them) and the remaining input. -/
def matchToks : List PTok → List Char → Option (List Char × List Char)
  | [], cs => some ([], cs)
  | .lit s :: ts, cs =>
    (litMatch s.data cs).bind fun ar =>
      (matchToks ts ar.2).map fun br => (ar.1 ++ br.1, br.2)
  | .digitStar :: ts, cs =>
    let ar := takeDigits cs
    (matchToks ts ar.2).map fun br => (ar.1 ++ br.1, br.2)
  | .digitRange lo hi :: ts, cs =>
    let ar := takeDigits cs
    if ar.1.length < lo then none
    else
      let taken := ar.1.take hi
      let rest := ar.1.drop hi ++ ar.2
      (matchToks ts rest).map fun br => (taken ++ br.1, br.2)
  | .sepOpt :: ts, [] => matchToks ts []
  | .sepOpt :: ts, c :: cs =>
    if isSepChar c then (matchToks ts cs).map fun br => (c :: br.1, br.2)
    else matchToks ts (c :: cs)
  | .sOpt :: ts, [] => matchToks ts []
  | .sOpt :: ts, c :: cs =>
    if c.toLower = 's' then (matchToks ts cs).map fun br => (c :: br.1, br.2)
    else matchToks ts (c :: cs)

/-- Word boundary after a match: end of input or a non-word character. -/
def boundaryAfter : List Char → Bool
  | [] => true
  | c :: _ => !isWordChar c

/-- Try the alternatives in order at the current position. -/
def firstAlt (alts : List (List PTok)) (cs : List Char) :
    Option (List Char × List Char) :=
  alts.findSome? fun alt =>
    (matchToks alt cs).bind fun ar =>
      if ar.1 ≠ [] ∧ boundaryAfter ar.2 then some ar else none

/-- The `re.findall` scan: left to right, matches only at word boundaries,
non-overlapping, first alternative wins.  `fuel` bounds the number of steps;
every step advances at least one character, so `cs.length + 1` is enough. -/
def scanMatches (alts : List (List PTok)) : ℕ → Option Char → List Char →
    List (List Char)
  | 0, _, _ => []
  | _ + 1, _, [] => []
  | fuel + 1, prev, c :: cs =>
    let boundaryOk := match prev with
      | none => true
      | some p => !isWordChar p
    match (if boundaryOk then firstAlt alts (c :: cs) else none) with
    | some ar => ar.1 :: scanMatches alts fuel ar.1.getLast? ar.2
    | none => scanMatches alts fuel (some c) cs

/-- `re.findall(pattern, text, re.IGNORECASE)` for one catalogue pattern. -/
def findAllPat (alts : List (List PTok)) (cs : List Char) : List (List Char) :=
  scanMatches alts (cs.length + 1) none cs

/-! ## Normalisation of matched entities (`extract_entities`) -/

/-- Match `RARE[\s-]?EARTHS?` at the head of (already upper-cased) input,
returning the rest. -/
def rareMatch (cs : List Char) : Option (List Char) :=
  match litMatch ['R', 'A', 'R', 'E'] cs with
  | none => none
  | some ar =>
    let afterSep := match ar.2 with
      | c :: cs' => if isSepChar c then cs' else ar.2
      | [] => ar.2
    match litMatch ['E', 'A', 'R', 'T', 'H'] afterSep with
    | none => none
    | some br =>
      match br.2 with
      | c :: cs' => if c = 'S' then some cs' else some br.2
      | [] => some br.2

/-- `re.sub(r'RARE[\s-]?EARTHS?', 'RARE EARTH', ·)` on upper-cased text. -/
def rareSub : ℕ → List Char → List Char
  | 0, cs => cs
  | _ + 1, [] => []
  | fuel + 1, c :: cs =>
    match rareMatch (c :: cs) with
    | some rest =>
      ('R' :: 'A' :: 'R' :: 'E' :: ' ' :: 'E' :: 'A' :: 'R' :: 'T' :: 'H' :: []) ++
        rareSub fuel rest
    | none => c :: rareSub fuel cs

/-- `re.sub(r'[\s-]+', ' ', ·)`: collapse runs of whitespace/hyphen to one
space.  The flag records whether the previous character was such a run. -/
def collapseSeps : List Char → Bool → List Char
  | [], _ => []
  | c :: cs, inRun =>
    if isSepChar c then
      if inRun then collapseSeps cs true else ' ' :: collapseSeps cs true
    else c :: collapseSeps cs false

/-- `str.strip()` after collapsing (only plain spaces can remain). -/
def stripSpaces (cs : List Char) : List Char :=
  ((cs.dropWhile fun c => c = ' ').reverse.dropWhile fun c => c = ' ').reverse

/-- The normalisation applied to each regex match in `extract_entities`:
upper-case, canonicalise rare-earth variants, collapse `[\s-]+` runs, strip. -/
def normalizeEntity (cs : List Char) : String :=
  let up := cs.map Char.toUpper
  String.mk (stripSpaces (collapseSeps (rareSub (up.length + 1) up) false))

/-! ## The pattern catalogue (`StoryCorrelator.entity_patterns`) -/

/-- Short-hand for a purely literal alternative. -/
def plit (s : String) : List PTok := [.lit s]

/-- `entity_patterns`, in source order; each entry is the list of alternatives
of the corresponding `\b(...)\b` regex. -/
def entityPatterns : List (String × List (List PTok)) :=
  [("countries",
    [plit "China", plit "Chinese", plit "Russia", plit "Russian", plit "Iran",
     plit "Iranian", plit "Israel", plit "Ukraine", plit "Taiwan",
     plit "North Korea", plit "DPRK", plit "United States", plit "USA",
     plit "US", plit "Myanmar", plit "India", plit "European Union", plit "EU"]),
   ("threat_actors",
    [[.lit "APT", .digitStar], plit "Lazarus", plit "Cozy Bear",
     plit "Fancy Bear", plit "Salt Typhoon", plit "Volt Typhoon",
     plit "Sandworm", plit "Kimsuky", plit "state-sponsored",
     plit "nation-state"]),
   ("malware",
    [plit "ransomware", plit "malware", plit "trojan", plit "backdoor",
     plit "rootkit", plit "spyware", plit "wiper"]),
   ("vulnerabilities",
    [[.lit "CVE-", .digitRange 4 4, .lit "-", .digitRange 4 7],
     plit "zero-day", plit "zero day", plit "0day", plit "vulnerability",
     plit "exploit"]),
   ("techniques",
    [plit "phishing", plit "spear-phishing", plit "social engineering",
     plit "watering hole", plit "DDoS", plit "credential stuffing",
     plit "attack", plit "breach", plit "hack", plit "intrusion"]),
   ("sectors",
    [plit "healthcare", plit "financial", plit "infrastructure", plit "energy",
     plit "telecom", plit "telecommunications", plit "government",
     plit "defense", plit "military"]),
   ("tech",
    [plit "Ivanti", plit "VMware", plit "Cisco", plit "Microsoft",
     plit "Google", plit "Apple", plit "Huawei", plit "5G", plit "AI"]),
   ("cyber_ops",
    [plit "cyber attack", plit "cyber espionage",
     [.lit "cyber", .sepOpt, .lit "threat"], plit "data breach",
     plit "network intrusion", plit "hacking campaign", plit "compromise"]),
   ("supply_chain",
    [plit "semiconductor", plit "chip", plit "TSMC",
     [.lit "rare", .sepOpt, .lit "earth", .sOpt], plit "lithium",
     plit "cobalt", plit "gallium", plit "germanium", plit "supply chain",
     plit "fab", plit "foundry", plit "wafer"]),
   ("economic",
    [plit "sanctions", plit "sanction", plit "tariff", plit "export control",
     plit "trade war", plit "trade spat", plit "CFIUS", plit "Entity List",
     plit "forced technology transfer", plit "economic warfare"]),
   ("military",
    [plit "drone", plit "UAV", plit "UAS", plit "missile", plit "satellite",
     plit "ASAT", plit "military operation", plit "combat",
     plit "military warfare", plit "space warfare"])]

/-- The set of normalised matches of one catalogue pattern in a text — the
value `extract_entities(text).get(entity_type, set())`. -/
def extractSet (alts : List (List PTok)) (t : String) : Finset String :=
  ((findAllPat alts t.data).map normalizeEntity).toFinset

/-! ## The entity/regex-mode scorer (`calculate_story_similarity`) -/

/-- A story dictionary as consumed by `processors/story_correlator.py`:
only the `Title` and `Category` keys are read (through `.get(·, '')`). -/
structure Story where
  Title : String
  Category : String
  deriving DecidableEq, Inhabited

/-- `f"{story.get('Title', '')} {story.get('Category', '')}"`. -/
def storyText (s : Story) : String := s.Title ++ " " ++ s.Category

/-- `dimension_scores`: for each entity type, in catalogue order, the Jaccard
score `shared/total` of the per-type entity sets of the two texts, kept when
both sides are non-empty and share at least one entity. -/
def dimensionScores (t1 t2 : String) : List ℚ :=
  entityPatterns.filterMap fun p =>
    let s1 := extractSet p.2 t1
    let s2 := extractSet p.2 t2
    if 0 < (s1 ∩ s2).card then
      some (((s1 ∩ s2).card : ℚ) / (((s1 ∪ s2).card : ℕ) : ℚ))
    else none

/-- `dimensions_matched`: the number of entity types on which the two texts
have a non-zero overlap (the counter is incremented exactly when a score is
appended to `dimension_scores`). -/
def dimensionsMatched (t1 t2 : String) : ℕ :=
  entityPatterns.countP fun p =>
    decide (0 < ((extractSet p.2 t1) ∩ (extractSet p.2 t2)).card)

/-- `StoryCorrelator.calculate_story_similarity`: the entity/regex scoring
mode.  Fewer than 2 matched dimensions with word overlap `< 0.5` is gated to
`0`; otherwise the score is `0.7 · mean(dimension_scores) + 0.3 · overlap`
(the mean being `0` when no dimension matched). -/
def calculate_story_similarity (story1 story2 : Story) : ℚ :=
  let text1 := storyText story1
  let text2 := storyText story2
  let dims := dimensionsMatched text1 text2
  let scores := dimensionScores text1 text2
  let word_overlap := wordOverlap (wordsOfStr text1) (wordsOfStr text2)
  if dims < 2 ∧ word_overlap < 1/2 then 0
  else
    (if scores = [] then 0 else scores.sum / (scores.length : ℚ)) * (7/10) +
      word_overlap * (3/10)

/-! ## The bounded seeded-growth cluster builder (`find_story_clusters`)

The loops of `find_story_clusters` / `_split_large_cluster` work on indices
into the story list; `assigned` is the Python `assigned` set.  The two
functions share the same growth algorithm, abstracted here over the pairwise
score of two indices. -/

/-- The inner loop: scan the candidate indices `js` in order; skip assigned
ones; stop (`break`) once the cluster has reached `maxSize`; otherwise add a
candidate whenever its score against the seed `i` reaches the threshold. -/
def growIdx (score : ℕ → ℕ → ℚ) (thr : ℚ) (maxSize : ℕ) (i : ℕ) :
    List ℕ → List ℕ → Finset ℕ → List ℕ × Finset ℕ
  | [], cluster, assigned => (cluster, assigned)
  | j :: js, cluster, assigned =>
    if j ∈ assigned then growIdx score thr maxSize i js cluster assigned
    else if maxSize ≤ cluster.length then (cluster, assigned)
    else if thr ≤ score i j then
      growIdx score thr maxSize i js (cluster ++ [j]) (insert j assigned)
    else growIdx score thr maxSize i js cluster assigned

/-- The outer loop: each not-yet-assigned index seeds a new cluster, grown
over the indices after it (`range(i + 1, n)`). -/
def buildIdx (score : ℕ → ℕ → ℚ) (thr : ℚ) (maxSize n : ℕ) :
    List ℕ → Finset ℕ → List (List ℕ)
  | [], _ => []
  | i :: is, assigned =>
    if i ∈ assigned then buildIdx score thr maxSize n is assigned
    else
      let ca := growIdx score thr maxSize i (List.range' (i + 1) (n - (i + 1)))
        [i] (insert i assigned)
      ca.1 :: buildIdx score thr maxSize n is ca.2

/-- Seeded bounded growth over all of `range n`. -/
def seededClusters (score : ℕ → ℕ → ℚ) (thr : ℚ) (maxSize n : ℕ) :
    List (List ℕ) :=
  buildIdx score thr maxSize n (List.range n) ∅

/-- Stable insertion of `a` in a list sorted by descending key: `a` goes in
front of the first element whose key does not exceed `a`'s. -/
def insertByKeyDesc {α : Type} (key : α → ℕ) (a : α) : List α → List α
  | [] => [a]
  | b :: l => if key b ≤ key a then a :: b :: l else b :: insertByKeyDesc key a l

/-- Stable sort by descending key — the semantics of Python's stable
`list.sort(key=…, reverse=True)` (the output of a stable sort is unique, so
insertion sort models it exactly). -/
def sortByKeyDesc {α : Type} (key : α → ℕ) : List α → List α
  | [] => []
  | a :: l => insertByKeyDesc key a (sortByKeyDesc key l)

/-- `StoryCorrelator._split_large_cluster`: re-cluster an oversized cluster's
members with the same seeded growth at a higher threshold (one pass). -/
def split_large_cluster (sim : Story → Story → ℚ) (cluster : List Story)
    (higher_threshold : ℚ) (max_size : ℕ) : List (List Story) :=
  if cluster.length ≤ max_size then [cluster]
  else
    (seededClusters
        (fun i j => sim (cluster.getD i default) (cluster.getD j default))
        higher_threshold max_size cluster.length).map
      fun c => c.map fun k => cluster.getD k default

/-- `StoryCorrelator.find_story_clusters`: seeded bounded growth over the
input order, sort by descending size, then split any cluster still above the
bound at threshold `+ 0.1`. -/
def find_story_clusters (stories : List Story) (threshold : ℚ := 3/10)
    (max_cluster_size : ℕ := 15) : List (List Story) :=
  if stories = [] then []
  else
    let n := stories.length
    let idx := seededClusters
      (fun i j => calculate_story_similarity (stories.getD i default)
        (stories.getD j default)) threshold max_cluster_size n
    let clusters := idx.map fun c => c.map fun k => stories.getD k default
    let sorted := sortByKeyDesc List.length clusters
    sorted.flatMap fun c =>
      if max_cluster_size < c.length then
        split_large_cluster calculate_story_similarity c (threshold + 1/10)
          max_cluster_size
      else [c]

/-! ## The connection index (`identify_connections`) -/

/-- Whether a story's text mentions the entity `k.2` of entity type `k.1`
(the extraction used inside the `identify_connections` story loop). -/
def mentionsKey (story : Story) (k : String × String) : Bool :=
  match entityPatterns.find? fun p => p.1 = k.1 with
  | some p => decide (k.2 ∈ extractSet p.2 (storyText story))
  | none => false

/-- The `entity_map` built by the story loop of `identify_connections`, seen
per key: each story of the input, in order, is appended to the list of every
`entity_type:entity` key it mentions. -/
def entityMapList (k : String × String) : List Story → List Story
  | [] => []
  | s :: ss =>
    (if mentionsKey s k then [s] else []) ++ entityMapList k ss

/-- `identify_connections`, seen per key: a key is retained with its count
and story list exactly when its `entity_map` list has more than one story. -/
def identify_connections (stories : List Story) (k : String × String) :
    Option (ℕ × List Story) :=
  let l := entityMapList k stories
  if 1 < l.length then some (l.length, l) else none

/-! ## `NLPProcessor` fallbacks (`nlp_processor.py`) -/

/-- `'a' ≤ c ≤ 'z'` (the class `[a-z]`). -/
def isLowerAZ (c : Char) : Bool := 'a' ≤ c && c ≤ 'z'

/-- `'A' ≤ c ≤ 'Z'` (the class `[A-Z]`). -/
def isUpperAZ (c : Char) : Bool := 'A' ≤ c && c ≤ 'Z'

/-- `set(re.findall(r'\b[a-z]{3,}\b', text.lower()))`: on lowered text a
match is a maximal word-character run made of letters only, of length at
least 3 (a run touching a digit or underscore has no word boundary). -/
def simpleWords (t : String) : Finset String :=
  (((wordRuns (lowerChars t.data)).filter fun r =>
      3 ≤ r.length && r.all isLowerAZ).map fun r => String.mk r).toFinset

/-- `NLPProcessor._simple_similarity`: Jaccard overlap of the two texts'
word sets (the lexical fallback when TF-IDF vectorisation fails). -/
def simple_similarity (text1 text2 : String) : ℚ :=
  let words1 := simpleWords text1
  let words2 := simpleWords text2
  if words1 = ∅ ∨ words2 = ∅ then 0
  else if 0 < (words1 ∪ words2).card then
    ((words1 ∩ words2).card : ℚ) / ((words1 ∪ words2).card : ℚ)
  else 0

/-! ### The capitalised-phrase scan of `_extract_entities_basic`

`re.findall(r'\b[A-Z][a-z]+(?:\s+[A-Z][a-z]+)*\b', text)`.  A phrase is a
greedy run of capitalised words separated by whitespace; when the trailing
`\b` fails (a word character follows the last word) the engine backtracks by
dropping the last `(?:\s+[A-Z][a-z]+)` iteration (shrinking a final `[a-z]+`
always leaves a letter adjacent and fails), and a one-word phrase fails
entirely. -/

/-- Split off the maximal leading run of characters satisfying `p`. -/
def takeRun (p : Char → Bool) : List Char → List Char × List Char
  | [] => ([], [])
  | c :: cs =>
    if p c then
      let ar := takeRun p cs
      (c :: ar.1, ar.2)
    else ([], c :: cs)

/-- `[A-Z][a-z]+` at the head of the input. -/
def capWord (cs : List Char) : Option (List Char × List Char) :=
  match cs with
  | [] => none
  | c :: cs' =>
    if isUpperAZ c then
      let ar := takeRun isLowerAZ cs'
      if ar.1 = [] then none else some (c :: ar.1, ar.2)
    else none

/-- Greedy `(?:\s+[A-Z][a-z]+)*`: the parsed `(separator, word)` segments
and the remaining input. -/
def capMore : ℕ → List Char → List (List Char × List Char) × List Char
  | 0, cs => ([], cs)
  | fuel + 1, cs =>
    let ws := takeRun isWsChar cs
    if ws.1 = [] then ([], cs)
    else
      match capWord ws.2 with
      | none => ([], cs)
      | some wr =>
        let rest := capMore fuel wr.2
        ((ws.1, wr.1) :: rest.1, rest.2)

/-- One phrase match at the current position, with the trailing-boundary
backtracking described above.  Returns the matched characters and the rest. -/
def capPhraseAt (cs : List Char) : Option (List Char × List Char) :=
  match capWord cs with
  | none => none
  | some wr =>
    let more := capMore (wr.2.length + 1) wr.2
    if boundaryAfter more.2 then
      some (wr.1 ++ (more.1.map fun p => p.1 ++ p.2).flatten, more.2)
    else
      match more.1.getLast? with
      | none => none
      | some lastPair =>
        some (wr.1 ++ ((more.1.dropLast).map fun p => p.1 ++ p.2).flatten,
          lastPair.1 ++ lastPair.2 ++ more.2)

/-- The scan for capitalised phrases (`re.findall`, leftmost,
non-overlapping). -/
def capScan : ℕ → Option Char → List Char → List String
  | 0, _, _ => []
  | _ + 1, _, [] => []
  | fuel + 1, prev, c :: cs =>
    let boundaryOk := match prev with
      | none => true
      | some p => !isWordChar p
    match (if boundaryOk then capPhraseAt (c :: cs) else none) with
    | some ar => String.mk ar.1 :: capScan fuel ar.1.getLast? ar.2
    | none => capScan fuel (some c) cs

/-- All capitalised phrases of a text, in scan order. -/
def capitalizedPhrases (t : String) : List String :=
  capScan (t.data.length + 1) none t.data

/-- The `org_keywords` list of `_extract_entities_basic`. -/
def org_keywords : List String :=
  ["Corp", "Inc", "Ltd", "LLC", "Company", "Group", "Agency", "Ministry",
   "Department"]

/-- Python's substring test `pat in w`. -/
def containsSub (pat : List Char) : List Char → Bool
  | [] => pat.isPrefixOf []
  | c :: cs => pat.isPrefixOf (c :: cs) || containsSub pat cs

/-- `potential_orgs`: capitalised phrases containing an organisation-suffix
keyword (Python substring containment). -/
def potentialOrgs (t : String) : List String :=
  (capitalizedPhrases t).filter fun w =>
    org_keywords.any fun kw => containsSub kw.data w.data

/-- Words of a phrase in the sense of `str.split()`: maximal non-whitespace
runs. -/
def splitCount (w : String) : ℕ :=
  (wordRunsBy w.data).length
where
  /-- Count the maximal non-whitespace runs. -/
  wordRunsBy (cs : List Char) : List (List Char) :=
    go cs []
  go : List Char → List Char → List (List Char)
    | [], acc => if acc = [] then [] else [acc.reverse]
    | c :: cs, acc =>
      if !isWsChar c then go cs (c :: acc)
      else if acc = [] then go cs [] else acc.reverse :: go cs []

/-- `potential_persons`: capitalised phrases of at most 3 words that did not
qualify as organisations (the `elif`). -/
def potentialPersons (t : String) : List String :=
  (capitalizedPhrases t).filter fun w =>
    !(org_keywords.any fun kw => containsSub kw.data w.data) &&
      splitCount w ≤ 3

/-- The semantics of Python's `list(set(xs))`: some duplicate-free
enumeration of the distinct elements of `xs`, in an unspecified order (set
iteration order is arbitrary, and with string-hash randomisation it differs
between runs). -/
def IsSetEnum (xs ys : List String) : Prop :=
  ys.Nodup ∧ (∀ a ∈ ys, a ∈ xs) ∧ (∀ a ∈ xs, a ∈ ys)

instance (xs ys : List String) : Decidable (IsSetEnum xs ys) :=
  decidable_of_iff
    (ys.Nodup ∧ (∀ a ∈ ys, a ∈ xs) ∧ (∀ a ∈ xs, a ∈ ys)) Iff.rfl

/-- `NLPProcessor._extract_entities_basic` as a relation between the input
text and the `ORG` / `PERSON` lists (`none` models an absent dictionary
key): each returned list is `list(set(potential_…))[:10]`. -/
def extract_entities_basic (t : String) (orgs pers : Option (List String)) :
    Prop :=
  ∃ so sp, IsSetEnum (potentialOrgs t) so ∧ IsSetEnum (potentialPersons t) sp ∧
    orgs = (if potentialOrgs t ≠ [] then some (so.take 10) else none) ∧
    pers = (if potentialPersons t ≠ [] then some (sp.take 10) else none)

/-- `str.lower` on a string. -/
def lowerStr (s : String) : String := String.mk (lowerChars s.data)

/-- First-seen-order case-insensitive deduplication; `seen` holds the lowered
keys already emitted. -/
def dedupCIAux : List String → List String → List String
  | [], _ => []
  | s :: ss, seen =>
    if lowerStr s ∈ seen then dedupCIAux ss seen
    else s :: dedupCIAux ss (lowerStr s :: seen)

/-- Modelled from the spec: the fallback extractor output as the spec's words
describe it — "deduplicated case-insensitively while preserving first-seen
order and capped at 10 entries per type".  This is the refinement target the
code's `_extract_entities_basic` is compared against in claim C9; it is not
part of the source. -/
def spec_extract_entities_basic (t : String) :
    Option (List String) × Option (List String) :=
  (if potentialOrgs t ≠ [] then some ((dedupCIAux (potentialOrgs t) []).take 10)
   else none,
   if potentialPersons t ≠ [] then
     some ((dedupCIAux (potentialPersons t) []).take 10)
   else none)

/-! ## The general-mode correlator (`correlators/story_correlator.py`)

`StoryCorrelator` there is constructed with an injected `nlp_processor`;
its `calculate_similarity` (TF-IDF cosine, an external library call with
`_simple_similarity` as in-repo fallback) is modelled as an explicit
function parameter `textSim`, and `process_story` (which may raise) as an
`Option`-valued parameter.  A story of `base_collector.Story` is modelled by
the fields the correlator reads; `published_date` is a UTC timestamp in
seconds, so that `(date1 - date2).total_seconds()` is the plain difference. -/

structure CollStory where
  title : String
  url : String
  source : String
  published_date : ℤ
  deriving DecidableEq, Inhabited

/-- The dictionary produced by `NLPProcessor.process_story`. -/
structure PData where
  entities : List (String × List String)
  keywords : List String
  text_for_similarity : String
  deriving DecidableEq, Inhabited

/-- Flatten an entity dictionary to one lower-cased set. -/
def flattenEntities (es : List (String × List String)) : Finset String :=
  (es.flatMap fun p => p.2.map lowerStr).toFinset

/-- `StoryCorrelator._entity_similarity`. -/
def entity_similarity (entities1 entities2 : List (String × List String)) :
    ℚ :=
  if entities1 = [] ∨ entities2 = [] then 0
  else
    let all_entities1 := flattenEntities entities1
    let all_entities2 := flattenEntities entities2
    if all_entities1 = ∅ ∨ all_entities2 = ∅ then 0
    else if 0 < (all_entities1 ∪ all_entities2).card then
      ((all_entities1 ∩ all_entities2).card : ℚ) /
        ((all_entities1 ∪ all_entities2).card : ℚ)
    else 0

/-- `StoryCorrelator._keyword_similarity`. -/
def keyword_similarity (keywords1 keywords2 : Finset String) : ℚ :=
  if keywords1 = ∅ ∨ keywords2 = ∅ then 0
  else if 0 < (keywords1 ∪ keywords2).card then
    ((keywords1 ∩ keywords2).card : ℚ) / ((keywords1 ∪ keywords2).card : ℚ)
  else 0

/-- `StoryCorrelator._temporal_similarity` (step function of the absolute
difference in seconds). -/
def temporal_similarity (date1 date2 : ℤ) : ℚ :=
  let time_diff := |date1 - date2|
  if time_diff < 3600 then 1
  else if time_diff < 86400 then 1/2
  else if time_diff < 604800 then 1/5
  else 0

/-- `StoryCorrelator._calculate_story_similarity`: the weighted combination
`0.4·text + 0.3·entity + 0.2·keyword + 0.1·temporal`. -/
def correlator_story_similarity (textSim : String → String → ℚ)
    (story1 story2 : CollStory × PData) : ℚ :=
  textSim story1.2.text_for_similarity story2.2.text_for_similarity * (4/10) +
    entity_similarity story1.2.entities story2.2.entities * (3/10) +
    keyword_similarity story1.2.keywords.toFinset story2.2.keywords.toFinset *
      (2/10) +
    temporal_similarity story1.1.published_date story2.1.published_date *
      (1/10)

/-- `StoryCorrelator._find_relationships`: all ordered pairs `i < j` whose
similarity reaches the configured threshold. -/
def find_relationships (textSim : String → String → ℚ)
    (similarity_threshold : ℚ) (processed_stories : List (CollStory × PData)) :
    List (ℕ × ℕ × ℚ) :=
  (List.range processed_stories.length).flatMap fun i =>
    (List.range' (i + 1) (processed_stories.length - (i + 1))).filterMap
      fun j =>
        let similarity := correlator_story_similarity textSim
          (processed_stories.getD i default) (processed_stories.getD j default)
        if similarity_threshold ≤ similarity then some (i, j, similarity)
        else none

/-- The adjacency sets of the undirected relationship graph (`graph` in
`_create_clusters`). -/
def neighborsOf (relationships : List (ℕ × ℕ × ℚ)) (v : ℕ) : Finset ℕ :=
  (((relationships.filter fun r => r.1 = v).map fun r => r.2.1) ++
    ((relationships.filter fun r => r.2.1 = v).map fun r => r.1)).toFinset

/-- One expansion step of the `dfs` of `_create_clusters`: add all neighbours
that are not globally `visited`. -/
def expandAvoiding (adj : ℕ → Finset ℕ) (visited : Finset ℕ)
    (s : Finset ℕ) : Finset ℕ :=
  s ∪ s.biUnion fun v => (adj v).filter fun w => w ∉ visited

/-- The node set collected by `dfs(i, …)` under a given global `visited`
set: the recursion explores, to exhaustion, exactly the not-yet-visited
neighbourhood closure of `i`; on a graph with `n` nodes, `n` expansion steps
reach that fixed point. -/
def dfsComponent (adj : ℕ → Finset ℕ) (visited : Finset ℕ) (n i : ℕ) :
    Finset ℕ :=
  (expandAvoiding adj visited)^[n] {i}

/-- The component loop of `_create_clusters`: every index not yet visited
starts a new cluster, whose nodes are then marked visited. -/
def ccLoop (adj : ℕ → Finset ℕ) (n : ℕ) : List ℕ → Finset ℕ →
    List (Finset ℕ)
  | [], _ => []
  | i :: is, visited =>
    if i ∈ visited then ccLoop adj n is visited
    else
      let comp := dfsComponent adj visited n i
      comp :: ccLoop adj n is (visited ∪ comp)

/-- `StoryCorrelator._create_clusters`.  A cluster is modelled by the set of
member indices into `processed_stories` (the `StoryCluster` object stores
the corresponding story/data pairs; it is filled by iterating over this set).
With no relationships every story is its own cluster (early return, no
sort); otherwise the connected components are listed in seed order and
sorted by descending size. -/
def create_clusters (processed_stories : List (CollStory × PData))
    (relationships : List (ℕ × ℕ × ℚ)) : List (Finset ℕ) :=
  if relationships = [] then
    (List.range processed_stories.length).map fun i => {i}
  else
    sortByKeyDesc Finset.card
      (ccLoop (neighborsOf relationships) processed_stories.length
        (List.range processed_stories.length) ∅)

/-- The story loop of `find_related_stories`: stories whose
`process_story` call raises are logged and dropped; the others are kept, in
order, as `(story, data)` pairs. -/
def processStories (proc : CollStory → Option PData)
    (stories : List CollStory) : List (CollStory × PData) :=
  stories.filterMap fun s => (proc s).map fun d => (s, d)

/-- `StoryCorrelator.find_related_stories`: process the stories, find the
relationships, build the clusters. -/
def find_related_stories (proc : CollStory → Option PData)
    (textSim : String → String → ℚ) (similarity_threshold : ℚ)
    (stories : List CollStory) : List (Finset ℕ) :=
  if stories = [] then []
  else
    create_clusters (processStories proc stories)
      (find_relationships textSim similarity_threshold
        (processStories proc stories))

/-! ## Concrete inputs used by witnesses and counterexamples -/

/-- The spec's country-only example headline. -/
def chinaScamStory : Story := ⟨"China-based group runs visa scam", ""⟩

/-- The spec's rare-earth example headline. -/
def chinaRareStory : Story := ⟨"China restricts rare earth exports", ""⟩

/-- A story with no catalogue entities and word set `{alpha, beta}`. -/
def alphaBetaStory : Story := ⟨"alpha beta", ""⟩

/-- A story with no catalogue entities and a word set extending
`alphaBetaStory`'s by two words (word overlap exactly `1/2`). -/
def alphaQuadStory : Story := ⟨"alpha beta gamma delta", ""⟩

/-- A story matching the `countries` and `techniques` patterns. -/
def chinaAttackStory : Story := ⟨"China attack", ""⟩

/-- A collector story for the general-mode witnesses. -/
def sampleCollStory : CollStory := ⟨"sample title", "u", "src", 0⟩

/-- A second collector story, one hour later. -/
def sampleCollStory2 : CollStory := ⟨"other title", "v", "src", 3600⟩

/-- Processed features for the general-mode witnesses. -/
def samplePData : PData := ⟨[("ORG", ["Acme"])], ["alpha"], "alpha beta"⟩

/-- A second processed-feature record. -/
def samplePData2 : PData := ⟨[("ORG", ["acme", "Zeta"])], ["beta"], "beta gamma"⟩


/-! ## Invariants of the seeded growth -/

theorem growIdx_spec (score : ℕ → ℕ → ℚ) (thr : ℚ) (K i : ℕ) :
    ∀ (js cluster : List ℕ) (assigned : Finset ℕ), ∃ added : List ℕ,
      (growIdx score thr K i js cluster assigned).1 = cluster ++ added ∧
      (growIdx score thr K i js cluster assigned).2 =
        assigned ∪ added.toFinset ∧
      added.Nodup ∧ ∀ x ∈ added, x ∈ js ∧ x ∉ assigned := by
  intro js
  induction js with
  | nil =>
    intro cluster assigned
    exact ⟨[], by simp [growIdx]⟩
  | cons j js ih =>
    intro cluster assigned
    by_cases hja : j ∈ assigned
    · obtain ⟨added, h1, h2, h3, h4⟩ := ih cluster assigned
      refine ⟨added, ?_, ?_, h3, ?_⟩
      · simpa [growIdx, hja] using h1
      · simpa [growIdx, hja] using h2
      · exact fun x hx => ⟨List.mem_cons_of_mem _ (h4 x hx).1, (h4 x hx).2⟩
    · by_cases hK : K ≤ cluster.length
      · exact ⟨[], by simp [growIdx, hja, hK]⟩
      · by_cases hs : thr ≤ score i j
        · obtain ⟨added, h1, h2, h3, h4⟩ :=
            ih (cluster ++ [j]) (insert j assigned)
          refine ⟨j :: added, ?_, ?_, ?_, ?_⟩
          · simp only [growIdx, hja, hK, hs, if_true, if_false, if_neg hja,
              if_neg hK, if_pos hs]
            rw [h1, List.append_assoc]
            rfl
          · simp only [growIdx, if_neg hja, if_neg hK, if_pos hs]
            rw [h2, List.toFinset_cons, Finset.insert_union,
              Finset.union_insert]
          · exact List.nodup_cons.2
              ⟨fun hj => ((h4 j hj).2 (Finset.mem_insert_self j assigned)),
                h3⟩
          · intro x hx
            rcases List.mem_cons.1 hx with rfl | hx'
            · exact ⟨List.mem_cons_self _ _, hja⟩
            · refine ⟨List.mem_cons_of_mem _ (h4 x hx').1, ?_⟩
              exact fun hxa => (h4 x hx').2 (Finset.mem_insert_of_mem hxa)
        · obtain ⟨added, h1, h2, h3, h4⟩ := ih cluster assigned
          refine ⟨added, ?_, ?_, h3, ?_⟩
          · simpa [growIdx, hja, hK, hs] using h1
          · simpa [growIdx, hja, hK, hs] using h2
          · exact fun x hx => ⟨List.mem_cons_of_mem _ (h4 x hx).1, (h4 x hx).2⟩

theorem growIdx_length (score : ℕ → ℕ → ℚ) (thr : ℚ) (K i : ℕ) :
    ∀ (js cluster : List ℕ) (assigned : Finset ℕ),
      cluster.length ≤ K →
      (growIdx score thr K i js cluster assigned).1.length ≤ K := by
  intro js
  induction js with
  | nil => intro cluster assigned h; simpa [growIdx] using h
  | cons j js ih =>
    intro cluster assigned h
    by_cases hja : j ∈ assigned
    · simpa [growIdx, hja] using ih cluster assigned h
    · by_cases hK : K ≤ cluster.length
      · simpa [growIdx, hja, hK] using h
      · by_cases hs : thr ≤ score i j
        · have hlen : (cluster ++ [j]).length ≤ K := by
            have := Nat.lt_of_not_le hK
            simpa [List.length_append] using this
          simpa [growIdx, hja, hK, hs] using
            ih (cluster ++ [j]) (insert j assigned) hlen
        · simpa [growIdx, hja, hK, hs] using ih cluster assigned h

theorem mem_range'_lt {x s m : ℕ} (h : x ∈ List.range' s m) : s ≤ x ∧ x < s + m := by
  rcases List.mem_range'.1 h with ⟨k, hk, rfl⟩
  omega

theorem buildIdx_spec (score : ℕ → ℕ → ℚ) (thr : ℚ) (K n : ℕ) :
    ∀ (is : List ℕ) (assigned : Finset ℕ),
      (∀ c ∈ buildIdx score thr K n is assigned, c ≠ []) ∧
      (buildIdx score thr K n is assigned).flatten.Nodup ∧
      (∀ x ∈ (buildIdx score thr K n is assigned).flatten,
        x ∉ assigned ∧ (x ∈ is ∨ x < n)) ∧
      (∀ x ∈ is, x ∉ assigned →
        x ∈ (buildIdx score thr K n is assigned).flatten) := by
  intro is
  induction is with
  | nil => intro assigned; simp [buildIdx]
  | cons i is ih =>
    intro assigned
    by_cases hia : i ∈ assigned
    · obtain ⟨p1, p2, p3, p4⟩ := ih assigned
      refine ⟨?_, ?_, ?_, ?_⟩
      · simpa [buildIdx, hia] using p1
      · simpa [buildIdx, hia] using p2
      · intro x hx
        rw [buildIdx, if_pos hia] at hx
        exact ⟨(p3 x hx).1, (p3 x hx).2.imp_left (List.mem_cons_of_mem _)⟩
      · intro x hx hxa
        rw [buildIdx, if_pos hia]
        rcases List.mem_cons.1 hx with rfl | hx'
        · exact absurd hia hxa
        · exact p4 x hx' hxa
    · obtain ⟨added, h1, h2, h3, h4⟩ := growIdx_spec score thr K i
        (List.range' (i + 1) (n - (i + 1))) [i] (insert i assigned)
      set a := (growIdx score thr K i (List.range' (i + 1) (n - (i + 1)))
        [i] (insert i assigned)).2 with ha
      obtain ⟨p1, p2, p3, p4⟩ := ih a
      have hbuild : buildIdx score thr K n (i :: is) assigned =
          (i :: added) :: buildIdx score thr K n is a := by
        rw [buildIdx, if_neg hia]
        simpa using h1
      have hcsub : ∀ x, x ∈ i :: added → x ∈ a := by
        intro x hx
        rw [h2]
        rcases List.mem_cons.1 hx with rfl | hx'
        · exact Finset.mem_union_left _ (Finset.mem_insert_self _ _)
        · exact Finset.mem_union_right _ (List.mem_toFinset.2 hx')
      have hcnotassigned : ∀ x, x ∈ i :: added → x ∉ assigned := by
        intro x hx
        rcases List.mem_cons.1 hx with rfl | hx'
        · exact hia
        · exact fun hxa => (h4 x hx').2 (Finset.mem_insert_of_mem hxa)
      refine ⟨?_, ?_, ?_, ?_⟩
      · intro c hc
        rw [hbuild] at hc
        rcases List.mem_cons.1 hc with rfl | hc'
        · simp
        · exact p1 c hc'
      · rw [hbuild, List.flatten_cons]
        refine List.nodup_append.2 ⟨?_, p2, ?_⟩
        · exact List.nodup_cons.2
            ⟨fun hi => (h4 i hi).2 (Finset.mem_insert_self _ _), h3⟩
        · intro x hx hx'
          exact (p3 x hx').1 (hcsub x hx)
      · intro x hx
        rw [hbuild, List.flatten_cons] at hx
        rcases List.mem_append.1 hx with hx' | hx'
        · refine ⟨hcnotassigned x hx', ?_⟩
          rcases List.mem_cons.1 hx' with rfl | hx''
          · exact Or.inl (List.mem_cons_self _ _)
          · have hmem := (h4 x hx'').1
            have hb := (mem_range'_lt hmem).2
            have hb' := (mem_range'_lt hmem).1
            right
            omega
        · obtain ⟨hna, hor⟩ := p3 x hx'
          refine ⟨fun hxa => hna ?_, hor.imp_left (List.mem_cons_of_mem _)⟩
          rw [h2]
          exact Finset.mem_union_left _ (Finset.mem_insert_of_mem hxa)
      · intro x hx hxa
        rw [hbuild, List.flatten_cons]
        rcases List.mem_cons.1 hx with rfl | hx'
        · exact List.mem_append_left _ (List.mem_cons_self _ _)
        · by_cases hxina : x ∈ a
          · rw [h2] at hxina
            rcases Finset.mem_union.1 hxina with hx1 | hx2
            · rcases Finset.mem_insert.1 hx1 with rfl | hx1'
              · exact List.mem_append_left _ (List.mem_cons_self _ _)
              · exact absurd hx1' hxa
            · exact List.mem_append_left _
                (List.mem_cons_of_mem _ (List.mem_toFinset.1 hx2))
          · exact List.mem_append_right _ (p4 x hx' hxina)

theorem buildIdx_length (score : ℕ → ℕ → ℚ) (thr : ℚ) (K n : ℕ) (hK : 1 ≤ K) :
    ∀ (is : List ℕ) (assigned : Finset ℕ),
      ∀ c ∈ buildIdx score thr K n is assigned, c.length ≤ K := by
  intro is
  induction is with
  | nil => intro assigned c hc; simp [buildIdx] at hc
  | cons i is ih =>
    intro assigned c hc
    by_cases hia : i ∈ assigned
    · rw [buildIdx, if_pos hia] at hc
      exact ih assigned c hc
    · rw [buildIdx, if_neg hia] at hc
      rcases List.mem_cons.1 hc with rfl | hc'
      · exact growIdx_length score thr K i _ [i] _ (by simpa using hK)
      · exact ih _ c hc'

theorem seededClusters_partition (score : ℕ → ℕ → ℚ) (thr : ℚ) (K n : ℕ) :
    (∀ c ∈ seededClusters score thr K n, c ≠ []) ∧
    (seededClusters score thr K n).flatten.Perm (List.range n) := by
  obtain ⟨p1, p2, p3, p4⟩ := buildIdx_spec score thr K n (List.range n) ∅
  refine ⟨p1, ?_⟩
  unfold seededClusters
  rw [List.perm_ext_iff_of_nodup p2 (List.nodup_range n)]
  intro x
  constructor
  · intro hx
    rcases (p3 x hx).2 with h | h
    · exact h
    · exact List.mem_range.2 h
  · intro hx
    exact p4 x hx (Finset.not_mem_empty x)

theorem getD_range_map {α : Type} (l : List α) (d : α) :
    (List.range l.length).map (fun i => l.getD i d) = l := by
  induction l with
  | nil => simp
  | cons a t ih =>
    rw [List.length_cons, List.range_succ_eq_map, List.map_cons,
      List.map_map]
    have h2 : ((fun i => (a :: t).getD i d) ∘ Nat.succ) =
        fun i => t.getD i d := by
      funext i
      simp [Function.comp, List.getD_cons_succ]
    rw [h2, ih]
    rfl

theorem insertByKeyDesc_perm {α : Type} (key : α → ℕ) (a : α) (l : List α) :
    (insertByKeyDesc key a l).Perm (a :: l) := by
  induction l with
  | nil => exact List.Perm.refl _
  | cons b l ih =>
    show (if key b ≤ key a then a :: b :: l
      else b :: insertByKeyDesc key a l).Perm (a :: b :: l)
    by_cases h : key b ≤ key a
    · rw [if_pos h]
    · rw [if_neg h]
      exact (ih.cons b).trans (List.Perm.swap a b l)

theorem sortByKeyDesc_perm {α : Type} (key : α → ℕ) (l : List α) :
    (sortByKeyDesc key l).Perm l := by
  induction l with
  | nil => exact List.Perm.refl _
  | cons a l ih =>
    show (insertByKeyDesc key a (sortByKeyDesc key l)).Perm (a :: l)
    exact (insertByKeyDesc_perm key a (sortByKeyDesc key l)).trans (ih.cons a)

theorem flatten_map_map {α : Type} (L : List (List ℕ)) (f : ℕ → α) :
    (L.map fun c => c.map f).flatten = L.flatten.map f := by
  induction L with
  | nil => rfl
  | cons c L ih =>
    rw [List.map_cons, List.flatten_cons, List.flatten_cons, List.map_append,
      ih]

theorem split_large_cluster_flatten_perm (sim : Story → Story → ℚ)
    (c : List Story) (thr' : ℚ) (K : ℕ) :
    (split_large_cluster sim c thr' K).flatten.Perm c := by
  unfold split_large_cluster
  by_cases h : c.length ≤ K
  · rw [if_pos h, List.flatten_cons]
    simp
  · rw [if_neg h, flatten_map_map]
    have hperm := (seededClusters_partition
      (fun i j => sim (c.getD i default) (c.getD j default)) thr' K c.length).2
    have := hperm.map fun k => c.getD k default
    rw [getD_range_map] at this
    exact this

theorem split_large_cluster_sizes (sim : Story → Story → ℚ) (c : List Story)
    (thr' : ℚ) (K : ℕ) (hK : 1 ≤ K) :
    ∀ d ∈ split_large_cluster sim c thr' K, d.length ≤ K := by
  intro d hd
  unfold split_large_cluster at hd
  by_cases h : c.length ≤ K
  · rw [if_pos h] at hd
    rcases List.mem_cons.1 hd with rfl | hd'
    · exact h
    · simp at hd'
  · rw [if_neg h] at hd
    rcases List.mem_map.1 hd with ⟨cidx, hcidx, rfl⟩
    rw [List.length_map]
    exact buildIdx_length _ thr' K c.length hK _ _ cidx hcidx

theorem split_large_cluster_nonempty (sim : Story → Story → ℚ)
    (c : List Story) (thr' : ℚ) (K : ℕ) (hc : c ≠ []) :
    ∀ d ∈ split_large_cluster sim c thr' K, d ≠ [] := by
  intro d hd
  unfold split_large_cluster at hd
  by_cases h : c.length ≤ K
  · rw [if_pos h] at hd
    rcases List.mem_cons.1 hd with rfl | hd'
    · exact hc
    · simp at hd'
  · rw [if_neg h] at hd
    rcases List.mem_map.1 hd with ⟨cidx, hcidx, rfl⟩
    have := (seededClusters_partition _ thr' K c.length).1 cidx hcidx
    simpa using this

theorem flatMap_flatten_perm {α : Type} (g : List α → List (List α)) :
    ∀ L : List (List α), (∀ c ∈ L, (g c).flatten.Perm c) →
      (L.flatMap g).flatten.Perm L.flatten := by
  intro L
  induction L with
  | nil => intro _; exact List.Perm.refl _
  | cons c L ih =>
    intro hg
    rw [List.flatMap_cons, List.flatten_append, List.flatten_cons]
    exact (hg c (List.mem_cons_self _ _)).append
      (ih fun d hd => hg d (List.mem_cons_of_mem _ hd))

theorem find_story_clusters_partition (stories : List Story) (thr : ℚ)
    (K : ℕ) (_hK : 1 ≤ K) :
    (find_story_clusters stories thr K).flatten.Perm stories ∧
      ∀ c ∈ find_story_clusters stories thr K, c ≠ [] := by
  by_cases hs : stories = []
  · subst hs
    constructor
    · exact List.Perm.refl _
    · intro c hc
      simp [find_story_clusters] at hc
  · unfold find_story_clusters
    rw [if_neg hs]
    set n := stories.length with hn
    set score := fun i j => calculate_story_similarity (stories.getD i default)
      (stories.getD j default) with hscore
    set idx := seededClusters score thr K n with hidx
    set clusters := idx.map (fun c => c.map fun k => stories.getD k default)
      with hclusters
    set sorted := sortByKeyDesc List.length clusters with hsorted
    have hcl_mem : ∀ c ∈ sorted, c ≠ [] := by
      intro c hc
      have hc' : c ∈ clusters := (sortByKeyDesc_perm _ _).mem_iff.1 hc
      rcases List.mem_map.1 hc' with ⟨cidx, hcidx, rfl⟩
      have := (seededClusters_partition score thr K n).1 cidx hcidx
      simpa using this
    constructor
    · have hg : ∀ c ∈ sorted,
          ((if K < c.length then
              split_large_cluster calculate_story_similarity c (thr + 1/10) K
            else [c]).flatten).Perm c := by
        intro c _
        by_cases hKc : K < c.length
        · rw [if_pos hKc]
          exact split_large_cluster_flatten_perm _ c _ K
        · rw [if_neg hKc, List.flatten_cons]
          simp
      refine (flatMap_flatten_perm _ sorted hg).trans ?_
      refine ((sortByKeyDesc_perm List.length clusters).flatten).trans ?_
      rw [hclusters, flatten_map_map]
      have := ((seededClusters_partition score thr K n).2).map
        fun k => stories.getD k default
      rw [hn, getD_range_map] at this
      exact this
    · intro c hc
      rcases List.mem_flatMap.1 hc with ⟨d, hd, hcd⟩
      by_cases hKd : K < d.length
      · rw [if_pos hKd] at hcd
        exact split_large_cluster_nonempty _ d _ K (hcl_mem d hd) c hcd
      · rw [if_neg hKd] at hcd
        rcases List.mem_cons.1 hcd with rfl | h'
        · exact hcl_mem c hd
        · simp at h'

theorem find_story_clusters_sizes (stories : List Story) (thr : ℚ) (K : ℕ)
    (hK : 1 ≤ K) : ∀ c ∈ find_story_clusters stories thr K, c.length ≤ K := by
  intro c hc
  by_cases hs : stories = []
  · subst hs; simp [find_story_clusters] at hc
  · unfold find_story_clusters at hc
    rw [if_neg hs] at hc
    rcases List.mem_flatMap.1 hc with ⟨d, hd, hcd⟩
    by_cases hKd : K < d.length
    · rw [if_pos hKd] at hcd
      exact split_large_cluster_sizes _ d _ K hK c hcd
    · rw [if_neg hKd] at hcd
      rcases List.mem_cons.1 hcd with rfl | h'
      · exact Nat.le_of_not_lt hKd
      · simp at h'

theorem dimensionScores_bounds (t1 t2 : String) :
    ∀ x ∈ dimensionScores t1 t2, 0 ≤ x ∧ x ≤ 1 := by
  intro x hx
  rcases List.mem_filterMap.1 hx with ⟨p, _, hFx⟩
  by_cases hcond : 0 < ((extractSet p.2 t1) ∩ (extractSet p.2 t2)).card
  · rw [if_pos hcond] at hFx
    obtain rfl := Option.some_injective _ hFx
    set i := ((extractSet p.2 t1) ∩ (extractSet p.2 t2)).card with hi
    set u := ((extractSet p.2 t1) ∪ (extractSet p.2 t2)).card with hu
    have hiu : i ≤ u := Finset.card_le_card
      (Finset.inter_subset_union)
    have hupos : 0 < u := lt_of_lt_of_le hcond hiu
    constructor
    · exact div_nonneg (by positivity) (by positivity)
    · rw [div_le_one (by exact_mod_cast hupos)]
      exact_mod_cast hiu
  · rw [if_neg hcond] at hFx
    exact absurd hFx (by simp)

theorem sum_le_length (l : List ℚ) (h : ∀ x ∈ l, x ≤ 1) :
    l.sum ≤ (l.length : ℚ) := by
  induction l with
  | nil => simp
  | cons a l ih =>
    rw [List.sum_cons, List.length_cons]
    push_cast
    have := ih fun x hx => h x (List.mem_cons_of_mem _ hx)
    have ha := h a (List.mem_cons_self _ _)
    linarith

theorem sum_nonneg_list (l : List ℚ) (h : ∀ x ∈ l, 0 ≤ x) : 0 ≤ l.sum := by
  induction l with
  | nil => simp
  | cons a l ih =>
    rw [List.sum_cons]
    have := ih fun x hx => h x (List.mem_cons_of_mem _ hx)
    have ha := h a (List.mem_cons_self _ _)
    linarith

theorem wordOverlap_bounds (w1 w2 : Finset String) :
    0 ≤ wordOverlap w1 w2 ∧ wordOverlap w1 w2 ≤ 1 := by
  unfold wordOverlap
  have hle : (w1 ∩ w2).card ≤ max (w1 ∪ w2).card 1 :=
    le_max_of_le_left (Finset.card_le_card Finset.inter_subset_union)
  have hpos : (0 : ℕ) < max (w1 ∪ w2).card 1 := le_max_right _ _
  constructor
  · exact div_nonneg (by positivity) (by positivity)
  · rw [div_le_one (by exact_mod_cast hpos)]
    exact_mod_cast hle

theorem calculate_story_similarity_bounds (s1 s2 : Story) :
    0 ≤ calculate_story_similarity s1 s2 ∧
      calculate_story_similarity s1 s2 ≤ 1 := by
  unfold calculate_story_similarity
  set scores := dimensionScores (storyText s1) (storyText s2) with hscores
  set wo := wordOverlap (wordsOfStr (storyText s1)) (wordsOfStr (storyText s2))
    with hwo
  obtain ⟨hwo0, hwo1⟩ := wordOverlap_bounds (wordsOfStr (storyText s1))
    (wordsOfStr (storyText s2))
  by_cases hgate : dimensionsMatched (storyText s1) (storyText s2) < 2 ∧
      wo < 1/2
  · rw [if_pos hgate]
    norm_num
  · rw [if_neg hgate]
    have hent : 0 ≤ (if scores = [] then 0 else scores.sum /
        (scores.length : ℚ)) ∧
        (if scores = [] then 0 else scores.sum / (scores.length : ℚ)) ≤ 1 := by
      by_cases hsc : scores = []
      · rw [if_pos hsc]; norm_num
      · rw [if_neg hsc]
        have hlen : 0 < (scores.length : ℚ) := by
          have : scores.length ≠ 0 := fun h => hsc (List.eq_nil_of_length_eq_zero h)
          exact_mod_cast Nat.pos_of_ne_zero this
        constructor
        · exact div_nonneg (sum_nonneg_list _ fun x hx =>
            (dimensionScores_bounds _ _ x hx).1) (le_of_lt hlen)
        · rw [div_le_one hlen]
          exact sum_le_length _ fun x hx =>
            (dimensionScores_bounds _ _ x hx).2
    constructor
    · nlinarith [hent.1, hent.2]
    · nlinarith [hent.1, hent.2]

theorem growIdx_no_add (score : ℕ → ℕ → ℚ) (thr : ℚ) (K i : ℕ)
    (h : ∀ j, score i j < thr) :
    ∀ (js cluster : List ℕ) (assigned : Finset ℕ),
      growIdx score thr K i js cluster assigned = (cluster, assigned) := by
  intro js
  induction js with
  | nil => intro cluster assigned; rfl
  | cons j js ih =>
    intro cluster assigned
    rw [growIdx]
    by_cases hja : j ∈ assigned
    · rw [if_pos hja]; exact ih cluster assigned
    · rw [if_neg hja]
      by_cases hK : K ≤ cluster.length
      · rw [if_pos hK]
      · rw [if_neg hK, if_neg (not_le.2 (h j))]
        exact ih cluster assigned

theorem buildIdx_singletons (score : ℕ → ℕ → ℚ) (thr : ℚ) (K n : ℕ)
    (hs : ∀ i j, score i j < thr) :
    ∀ (is : List ℕ) (assigned : Finset ℕ), is.Nodup →
      buildIdx score thr K n is assigned =
        (is.filter fun i => i ∉ assigned).map fun i => [i] := by
  intro is
  induction is with
  | nil => intro assigned _; rfl
  | cons i is ih =>
    intro assigned hnd
    obtain ⟨hi_not, hnd'⟩ := List.nodup_cons.1 hnd
    rw [buildIdx, List.filter_cons]
    by_cases hia : i ∈ assigned
    · rw [if_pos hia]
      have : (decide (i ∉ assigned)) = false := by simp [hia]
      rw [this]
      simp only [Bool.false_eq_true, if_false]
      exact ih assigned hnd'
    · rw [if_neg hia]
      have hdec : (decide (i ∉ assigned)) = true := by simp [hia]
      rw [hdec]
      simp only [if_true]
      rw [growIdx_no_add score thr K i (hs i)]
      rw [List.map_cons]
      refine congrArg₂ _ rfl ?_
      rw [ih (insert i assigned) hnd']
      refine congrArg _ (List.filter_congr ?_)
      intro x hx
      have hxi : x ≠ i := fun h => hi_not (h ▸ hx)
      simp [Finset.mem_insert, hxi]

theorem insertByKeyDesc_const {α : Type} (key : α → ℕ) (a : α) (l : List α)
    (h : ∀ x ∈ l, key x = key a) : insertByKeyDesc key a l = a :: l := by
  cases l with
  | nil => rfl
  | cons b l =>
    show (if key b ≤ key a then a :: b :: l else _) = _
    rw [if_pos (le_of_eq (h b (List.mem_cons_self _ _)))]

theorem sortByKeyDesc_const {α : Type} (key : α → ℕ) (m : ℕ) :
    ∀ l : List α, (∀ x ∈ l, key x = m) → sortByKeyDesc key l = l := by
  intro l
  induction l with
  | nil => intro _; rfl
  | cons a l ih =>
    intro h
    show insertByKeyDesc key a (sortByKeyDesc key l) = a :: l
    rw [ih fun x hx => h x (List.mem_cons_of_mem _ hx)]
    refine insertByKeyDesc_const key a l ?_
    intro x hx
    rw [h x (List.mem_cons_of_mem _ hx), h a (List.mem_cons_self _ _)]

theorem flatMap_id_of_singleton {α : Type} (g : List α → List (List α))
    (l : List (List α)) (h : ∀ c ∈ l, g c = [c]) : l.flatMap g = l := by
  induction l with
  | nil => rfl
  | cons c l ih =>
    rw [List.flatMap_cons, h c (List.mem_cons_self _ _)]
    rw [ih fun d hd => h d (List.mem_cons_of_mem _ hd)]
    rfl

/-- With a threshold above `1` nothing ever clusters: no validation rejects
such a configuration, and `find_story_clusters` simply returns every story as
its own singleton cluster. -/
theorem find_story_clusters_all_singletons (stories : List Story) (thr : ℚ)
    (K : ℕ) (hthr : 1 < thr) (hK : 1 ≤ K) :
    find_story_clusters stories thr K = stories.map fun s => [s] := by
  by_cases hs : stories = []
  · subst hs; rfl
  · have heq : find_story_clusters stories thr K =
        (sortByKeyDesc List.length
          ((seededClusters
              (fun i j => calculate_story_similarity (stories.getD i default)
                (stories.getD j default)) thr K stories.length).map
            fun c => c.map fun k => stories.getD k default)).flatMap
          fun c => if K < c.length then
              split_large_cluster calculate_story_similarity c (thr + 1/10) K
            else [c] := by
      unfold find_story_clusters
      rw [if_neg hs]
    rw [heq]
    set n := stories.length with hn
    set score := fun i j => calculate_story_similarity (stories.getD i default)
      (stories.getD j default) with hscore
    have hlt : ∀ i j, score i j < thr := fun i j =>
      lt_of_le_of_lt (calculate_story_similarity_bounds _ _).2 hthr
    have hidx : seededClusters score thr K n =
        (List.range n).map fun i => [i] := by
      unfold seededClusters
      rw [buildIdx_singletons score thr K n hlt (List.range n) ∅
        (List.nodup_range n)]
      refine congrArg _ (List.filter_eq_self.2 ?_)
      intro a _
      simp
    rw [hidx, List.map_map]
    have hclusters : (List.range n).map
        ((fun c => c.map fun k => stories.getD k default) ∘ fun i => [i]) =
        stories.map fun s => [s] := by
      have h1 : ((fun c => c.map fun k => stories.getD k default) ∘
          fun i => [i]) = fun i => [stories.getD i default] := rfl
      rw [h1]
      have h2 : (fun i => [stories.getD i default]) =
          ((fun s => [s]) ∘ fun i => stories.getD i default) := rfl
      rw [h2, ← List.map_map, hn, getD_range_map]
    rw [hclusters]
    rw [sortByKeyDesc_const List.length 1 _ ?hconst]
    case hconst =>
      intro x hx
      rcases List.mem_map.1 hx with ⟨s, _, rfl⟩
      rfl
    refine flatMap_id_of_singleton _ _ ?_
    intro c hc
    rcases List.mem_map.1 hc with ⟨s, _, rfl⟩
    rw [if_neg (by simp; omega)]

theorem iterate_expand_superset (adj : ℕ → Finset ℕ) (visited : Finset ℕ) :
    ∀ (k : ℕ) (s : Finset ℕ), s ⊆ (expandAvoiding adj visited)^[k] s := by
  intro k
  induction k with
  | zero => intro s; exact Finset.Subset.refl s
  | succ k ih =>
    intro s
    rw [Function.iterate_succ_apply']
    exact (ih s).trans Finset.subset_union_left

theorem expandAvoiding_avoid (adj : ℕ → Finset ℕ) (visited s : Finset ℕ)
    (h : ∀ x ∈ s, x ∉ visited) :
    ∀ x ∈ expandAvoiding adj visited s, x ∉ visited := by
  intro x hx
  rcases Finset.mem_union.1 hx with hx' | hx'
  · exact h x hx'
  · rcases Finset.mem_biUnion.1 hx' with ⟨v, _, hxv⟩
    exact (Finset.mem_filter.1 hxv).2

theorem dfsComponent_avoid (adj : ℕ → Finset ℕ) (visited : Finset ℕ)
    (n i : ℕ) (hi : i ∉ visited) :
    ∀ x ∈ dfsComponent adj visited n i, x ∉ visited := by
  unfold dfsComponent
  induction n with
  | zero =>
    intro x hx
    rcases Finset.mem_singleton.1 hx with rfl
    exact hi
  | succ n ih =>
    rw [Function.iterate_succ_apply']
    exact expandAvoiding_avoid adj visited _ ih

theorem expandAvoiding_bound (adj : ℕ → Finset ℕ) (visited s : Finset ℕ)
    (n : ℕ) (hadj : ∀ v w, w ∈ adj v → w < n) (h : ∀ x ∈ s, x < n) :
    ∀ x ∈ expandAvoiding adj visited s, x < n := by
  intro x hx
  rcases Finset.mem_union.1 hx with hx' | hx'
  · exact h x hx'
  · rcases Finset.mem_biUnion.1 hx' with ⟨v, _, hxv⟩
    exact hadj v x (Finset.mem_filter.1 hxv).1

theorem dfsComponent_bound (adj : ℕ → Finset ℕ) (visited : Finset ℕ)
    (n m i : ℕ) (hadj : ∀ v w, w ∈ adj v → w < n) (hi : i < n) :
    ∀ x ∈ dfsComponent adj visited m i, x < n := by
  unfold dfsComponent
  induction m with
  | zero =>
    intro x hx
    rcases Finset.mem_singleton.1 hx with rfl
    exact hi
  | succ m ih =>
    rw [Function.iterate_succ_apply']
    exact expandAvoiding_bound adj visited _ n hadj ih

theorem mem_dfsComponent_self (adj : ℕ → Finset ℕ) (visited : Finset ℕ)
    (n i : ℕ) : i ∈ dfsComponent adj visited n i :=
  iterate_expand_superset adj visited n {i} (Finset.mem_singleton_self i)

theorem ccLoop_spec (adj : ℕ → Finset ℕ) (n : ℕ)
    (hadj : ∀ v w, w ∈ adj v → w < n) :
    ∀ (is : List ℕ) (visited : Finset ℕ), (∀ x ∈ is, x < n) →
      (∀ comp ∈ ccLoop adj n is visited, comp.Nonempty) ∧
      (∀ comp ∈ ccLoop adj n is visited, ∀ x ∈ comp, x ∉ visited ∧ x < n) ∧
      List.Pairwise (fun c d : Finset ℕ => ∀ x ∈ c, x ∉ d)
        (ccLoop adj n is visited) ∧
      (∀ x ∈ is, x ∉ visited →
        ∃ comp ∈ ccLoop adj n is visited, x ∈ comp) := by
  intro is
  induction is with
  | nil =>
    intro visited _
    refine ⟨?_, ?_, ?_, ?_⟩ <;> simp [ccLoop]
  | cons i is ih =>
    intro visited his
    have hin : i < n := his i (List.mem_cons_self _ _)
    have his' : ∀ x ∈ is, x < n := fun x hx =>
      his x (List.mem_cons_of_mem _ hx)
    by_cases hiv : i ∈ visited
    · obtain ⟨p1, p2, p3, p4⟩ := ih visited his'
      rw [ccLoop, if_pos hiv]
      refine ⟨p1, p2, p3, ?_⟩
      intro x hx hxv
      rcases List.mem_cons.1 hx with rfl | hx'
      · exact absurd hiv hxv
      · exact p4 x hx' hxv
    · set comp := dfsComponent adj visited n i with hcomp
      obtain ⟨p1, p2, p3, p4⟩ := ih (visited ∪ comp) his'
      have hloop : ccLoop adj n (i :: is) visited =
          comp :: ccLoop adj n is (visited ∪ comp) := by
        rw [ccLoop, if_neg hiv]
      have hcomp_avoid : ∀ x ∈ comp, x ∉ visited :=
        dfsComponent_avoid adj visited n i hiv
      have hcomp_bound : ∀ x ∈ comp, x < n :=
        dfsComponent_bound adj visited n n i hadj hin
      rw [hloop]
      refine ⟨?_, ?_, ?_, ?_⟩
      · intro c hc
        rcases List.mem_cons.1 hc with rfl | hc'
        · exact ⟨i, mem_dfsComponent_self adj visited n i⟩
        · exact p1 c hc'
      · intro c hc x hx
        rcases List.mem_cons.1 hc with rfl | hc'
        · exact ⟨hcomp_avoid x hx, hcomp_bound x hx⟩
        · obtain ⟨hnv, hlt⟩ := p2 c hc' x hx
          exact ⟨fun hv => hnv (Finset.mem_union_left _ hv), hlt⟩
      · refine List.pairwise_cons.2 ⟨?_, p3⟩
        intro d hd x hx hxd
        exact (p2 d hd x hxd).1 (Finset.mem_union_right _ hx)
      · intro x hx hxv
        rcases List.mem_cons.1 hx with rfl | hx'
        · exact ⟨comp, List.mem_cons_self _ _,
            mem_dfsComponent_self adj visited n x⟩
        · by_cases hxc : x ∈ comp
          · exact ⟨comp, List.mem_cons_self _ _, hxc⟩
          · have hx2 : x ∉ visited ∪ comp := by
              intro hmem
              rcases Finset.mem_union.1 hmem with h | h
              · exact hxv h
              · exact hxc h
            obtain ⟨c, hc, hxc'⟩ := p4 x hx' hx2
            exact ⟨c, List.mem_cons_of_mem _ hc, hxc'⟩

theorem neighborsOf_bound (rels : List (ℕ × ℕ × ℚ)) (n : ℕ)
    (hrels : ∀ r ∈ rels, r.1 < n ∧ r.2.1 < n) :
    ∀ v w, w ∈ neighborsOf rels v → w < n := by
  intro v w hw
  rcases List.mem_toFinset.1 hw with hw'
  rcases List.mem_append.1 hw' with h | h
  · rcases List.mem_map.1 h with ⟨r, hr, rfl⟩
    exact (hrels r (List.mem_filter.1 hr).1).2
  · rcases List.mem_map.1 h with ⟨r, hr, rfl⟩
    exact (hrels r (List.mem_filter.1 hr).1).1

theorem create_clusters_partition (ps : List (CollStory × PData))
    (rels : List (ℕ × ℕ × ℚ))
    (hrels : ∀ r ∈ rels, r.1 < ps.length ∧ r.2.1 < ps.length) :
    (∀ c ∈ create_clusters ps rels, c.Nonempty) ∧
    List.Pairwise (fun c d : Finset ℕ => ∀ x ∈ c, x ∉ d)
      (create_clusters ps rels) ∧
    (∀ x, (∃ c ∈ create_clusters ps rels, x ∈ c) ↔ x < ps.length) := by
  by_cases hr : rels = []
  · subst hr
    unfold create_clusters
    rw [if_pos rfl]
    refine ⟨?_, ?_, ?_⟩
    · intro c hc
      rcases List.mem_map.1 hc with ⟨i, _, rfl⟩
      exact ⟨i, Finset.mem_singleton_self i⟩
    · refine List.pairwise_map.2 ?_
      refine List.Pairwise.imp ?_ (List.pairwise_lt_range ps.length)
      intro a b hab x hx hxb
      rw [Finset.mem_singleton] at hx hxb
      subst hx
      exact absurd hxb (Nat.ne_of_lt hab)
    · intro x
      constructor
      · intro ⟨c, hc, hxc⟩
        rcases List.mem_map.1 hc with ⟨i, hi, rfl⟩
        rw [Finset.mem_singleton] at hxc
        subst hxc
        exact List.mem_range.1 hi
      · intro hx
        exact ⟨{x}, List.mem_map.2 ⟨x, List.mem_range.2 hx, rfl⟩,
          Finset.mem_singleton_self x⟩
  · unfold create_clusters
    rw [if_neg hr]
    have hadj := neighborsOf_bound rels ps.length hrels
    obtain ⟨p1, p2, p3, p4⟩ := ccLoop_spec (neighborsOf rels) ps.length hadj
      (List.range ps.length) ∅ (fun x hx => List.mem_range.1 hx)
    have hperm := sortByKeyDesc_perm Finset.card
      (ccLoop (neighborsOf rels) ps.length (List.range ps.length) ∅)
    refine ⟨?_, ?_, ?_⟩
    · intro c hc
      exact p1 c (hperm.mem_iff.1 hc)
    · refine (List.Perm.pairwise_iff ?_ hperm).2 p3
      intro c d h x hxd hxc
      exact h x hxc hxd
    · intro x
      constructor
      · intro ⟨c, hc, hxc⟩
        exact (p2 c (hperm.mem_iff.1 hc) x hxc).2
      · intro hx
        obtain ⟨c, hc, hxc⟩ := p4 x (List.mem_range.2 hx)
          (Finset.not_mem_empty x)
        exact ⟨c, hperm.mem_iff.2 hc, hxc⟩

theorem find_relationships_bounds (textSim : String → String → ℚ) (thr : ℚ)
    (ps : List (CollStory × PData)) :
    ∀ r ∈ find_relationships textSim thr ps,
      r.1 < ps.length ∧ r.2.1 < ps.length := by
  intro r hr
  unfold find_relationships at hr
  rcases List.mem_flatMap.1 hr with ⟨i, hi, hri⟩
  have hiN : i < ps.length := List.mem_range.1 hi
  rcases List.mem_filterMap.1 hri with ⟨j, hj, hfj⟩
  obtain ⟨hj1, hj2⟩ := mem_range'_lt hj
  by_cases hcond : thr ≤ correlator_story_similarity textSim
      (ps.getD i default) (ps.getD j default)
  · rw [if_pos hcond] at hfj
    obtain rfl := Option.some_injective _ hfj
    refine ⟨hiN, ?_⟩
    show j < ps.length
    omega
  · rw [if_neg hcond] at hfj
    exact absurd hfj (by simp)

theorem processStories_map_fst (proc : CollStory → Option PData)
    (stories : List CollStory) :
    (processStories proc stories).map Prod.fst =
      stories.filter fun s => (proc s).isSome := by
  induction stories with
  | nil => rfl
  | cons s ss ih =>
    unfold processStories at ih ⊢
    rw [List.filterMap_cons, List.filter_cons]
    cases hps : proc s with
    | none => simpa [hps] using ih
    | some d => simpa [hps] using ih

theorem find_related_stories_partition (proc : CollStory → Option PData)
    (textSim : String → String → ℚ) (thr : ℚ) (stories : List CollStory) :
    (∀ c ∈ find_related_stories proc textSim thr stories, c.Nonempty) ∧
    List.Pairwise (fun c d : Finset ℕ => ∀ x ∈ c, x ∉ d)
      (find_related_stories proc textSim thr stories) ∧
    (∀ x, (∃ c ∈ find_related_stories proc textSim thr stories, x ∈ c) ↔
      x < (processStories proc stories).length) := by
  by_cases hs : stories = []
  · subst hs
    refine ⟨?_, ?_, ?_⟩
    · intro c hc; simp [find_related_stories] at hc
    · simp [find_related_stories]
    · intro x
      constructor
      · intro ⟨c, hc, _⟩; simp [find_related_stories] at hc
      · intro hx; simp [processStories] at hx
  · unfold find_related_stories
    rw [if_neg hs]
    exact create_clusters_partition (processStories proc stories)
      (find_relationships textSim thr (processStories proc stories))
      (find_relationships_bounds textSim thr (processStories proc stories))

theorem filterMap_congr_fn {α β : Type} (l : List α) (f g : α → Option β)
    (h : ∀ a ∈ l, f a = g a) : l.filterMap f = l.filterMap g := by
  induction l with
  | nil => rfl
  | cons a l ih =>
    rw [List.filterMap_cons, List.filterMap_cons,
      h a (List.mem_cons_self _ _),
      ih fun x hx => h x (List.mem_cons_of_mem _ hx)]

theorem dimensionScores_def (t1 t2 : String) :
    dimensionScores t1 t2 = entityPatterns.filterMap fun p =>
      if 0 < ((extractSet p.2 t1) ∩ (extractSet p.2 t2)).card then
        some ((((extractSet p.2 t1) ∩ (extractSet p.2 t2)).card : ℚ) /
          ((((extractSet p.2 t1) ∪ (extractSet p.2 t2)).card : ℕ) : ℚ))
      else none := rfl

theorem calculate_story_similarity_def (s1 s2 : Story) :
    calculate_story_similarity s1 s2 =
      if dimensionsMatched (storyText s1) (storyText s2) < 2 ∧
          wordOverlap (wordsOfStr (storyText s1))
            (wordsOfStr (storyText s2)) < 1/2 then 0
      else
        (if dimensionScores (storyText s1) (storyText s2) = [] then 0
          else (dimensionScores (storyText s1) (storyText s2)).sum /
            ((dimensionScores (storyText s1) (storyText s2)).length : ℚ)) *
          (7/10) +
          wordOverlap (wordsOfStr (storyText s1))
            (wordsOfStr (storyText s2)) * (3/10) := rfl

theorem entity_similarity_def (e1 e2 : List (String × List String)) :
    entity_similarity e1 e2 =
      if e1 = [] ∨ e2 = [] then 0
      else if flattenEntities e1 = ∅ ∨ flattenEntities e2 = ∅ then 0
      else if 0 < (flattenEntities e1 ∪ flattenEntities e2).card then
        ((flattenEntities e1 ∩ flattenEntities e2).card : ℚ) /
          ((flattenEntities e1 ∪ flattenEntities e2).card : ℚ)
      else 0 := rfl

theorem temporal_similarity_def (d1 d2 : ℤ) :
    temporal_similarity d1 d2 =
      if |d1 - d2| < 3600 then 1
      else if |d1 - d2| < 86400 then 1/2
      else if |d1 - d2| < 604800 then 1/5
      else 0 := rfl

theorem simple_similarity_def (t1 t2 : String) :
    simple_similarity t1 t2 =
      if simpleWords t1 = ∅ ∨ simpleWords t2 = ∅ then 0
      else if 0 < (simpleWords t1 ∪ simpleWords t2).card then
        ((simpleWords t1 ∩ simpleWords t2).card : ℚ) /
          ((simpleWords t1 ∪ simpleWords t2).card : ℚ)
      else 0 := rfl

theorem dimensionsMatched_comm (t1 t2 : String) :
    dimensionsMatched t1 t2 = dimensionsMatched t2 t1 := by
  unfold dimensionsMatched
  refine List.countP_congr ?_
  intro p _
  rw [Finset.inter_comm]

theorem dimensionScores_comm (t1 t2 : String) :
    dimensionScores t1 t2 = dimensionScores t2 t1 := by
  rw [dimensionScores_def, dimensionScores_def]
  refine filterMap_congr_fn _ _ _ ?_
  intro p _
  rw [Finset.inter_comm, Finset.union_comm]

theorem wordOverlap_comm (w1 w2 : Finset String) :
    wordOverlap w1 w2 = wordOverlap w2 w1 := by
  unfold wordOverlap
  rw [Finset.inter_comm, Finset.union_comm]

theorem calculate_story_similarity_comm (s1 s2 : Story) :
    calculate_story_similarity s1 s2 = calculate_story_similarity s2 s1 := by
  rw [calculate_story_similarity_def, calculate_story_similarity_def,
    dimensionsMatched_comm, dimensionScores_comm, wordOverlap_comm]

theorem entity_similarity_comm (e1 e2 : List (String × List String)) :
    entity_similarity e1 e2 = entity_similarity e2 e1 := by
  rw [entity_similarity_def, entity_similarity_def, Finset.inter_comm,
    Finset.union_comm]
  by_cases h1 : e1 = [] <;> by_cases h2 : e2 = [] <;>
    by_cases h3 : flattenEntities e1 = ∅ <;>
    by_cases h4 : flattenEntities e2 = ∅ <;>
    simp [h1, h2, h3, h4]

theorem keyword_similarity_comm (k1 k2 : Finset String) :
    keyword_similarity k1 k2 = keyword_similarity k2 k1 := by
  unfold keyword_similarity
  rw [Finset.inter_comm, Finset.union_comm]
  by_cases h1 : k1 = ∅ <;> by_cases h2 : k2 = ∅ <;> simp [h1, h2]

theorem temporal_similarity_comm (d1 d2 : ℤ) :
    temporal_similarity d1 d2 = temporal_similarity d2 d1 := by
  rw [temporal_similarity_def, temporal_similarity_def, abs_sub_comm]

theorem correlator_story_similarity_comm (textSim : String → String → ℚ)
    (hsymm : ∀ a b, textSim a b = textSim b a)
    (s1 s2 : CollStory × PData) :
    correlator_story_similarity textSim s1 s2 =
      correlator_story_similarity textSim s2 s1 := by
  unfold correlator_story_similarity
  rw [hsymm, entity_similarity_comm, keyword_similarity_comm,
    temporal_similarity_comm]

theorem simple_similarity_comm (t1 t2 : String) :
    simple_similarity t1 t2 = simple_similarity t2 t1 := by
  rw [simple_similarity_def, simple_similarity_def, Finset.inter_comm,
    Finset.union_comm]
  by_cases h1 : simpleWords t1 = ∅ <;> by_cases h2 : simpleWords t2 = ∅ <;>
    simp [h1, h2]

theorem dimensionScores_self (t : String) :
    ∀ x ∈ dimensionScores t t, x = 1 := by
  intro x hx
  rw [dimensionScores_def] at hx
  rcases List.mem_filterMap.1 hx with ⟨p, _, hFx⟩
  by_cases hcond : 0 < ((extractSet p.2 t) ∩ (extractSet p.2 t)).card
  · rw [if_pos hcond] at hFx
    obtain rfl := Option.some_injective _ hFx
    rw [Finset.inter_self] at hcond ⊢
    rw [Finset.union_self]
    have : ((extractSet p.2 t).card : ℚ) ≠ 0 := by
      exact_mod_cast Nat.pos_iff_ne_zero.1 hcond
    exact div_self this
  · rw [if_neg hcond] at hFx
    exact absurd hFx (by simp)

theorem wordOverlap_self (w : Finset String) (hw : w ≠ ∅) :
    wordOverlap w w = 1 := by
  unfold wordOverlap
  rw [Finset.inter_self, Finset.union_self]
  have hpos : 0 < w.card := Finset.card_pos.2 (Finset.nonempty_iff_ne_empty.2 hw)
  rw [max_eq_left hpos]
  exact div_self (by exact_mod_cast Nat.pos_iff_ne_zero.1 hpos)

theorem sum_of_ones (l : List ℚ) (h : ∀ x ∈ l, x = 1) :
    l.sum = (l.length : ℚ) := by
  induction l with
  | nil => simp
  | cons a l ih =>
    rw [List.sum_cons, List.length_cons, h a (List.mem_cons_self _ _),
      ih fun x hx => h x (List.mem_cons_of_mem _ hx)]
    push_cast
    ring

theorem calculate_story_similarity_self (story : Story)
    (h : wordsOfStr (storyText story) ≠ ∅) :
    3/10 ≤ calculate_story_similarity story story := by
  rw [calculate_story_similarity_def]
  rw [wordOverlap_self _ h]
  rw [if_neg (by norm_num)]
  set scores := dimensionScores (storyText story) (storyText story) with hsc
  have hent : 0 ≤ (if scores = [] then 0 else scores.sum /
      (scores.length : ℚ)) := by
    by_cases hn : scores = []
    · rw [if_pos hn]
    · rw [if_neg hn]
      have hone : scores.sum = (scores.length : ℚ) :=
        sum_of_ones _ (dimensionScores_self (storyText story))
      rw [hone]
      positivity
  nlinarith [hent]

theorem length_filterMap_ite {α β : Type} (l : List α) (p : α → Prop)
    [DecidablePred p] (f : α → β) :
    (l.filterMap fun a => if p a then some (f a) else none).length =
      l.countP fun a => decide (p a) := by
  induction l with
  | nil => rfl
  | cons a l ih =>
    rw [List.filterMap_cons, List.countP_cons]
    by_cases hp : p a
    · simp only [if_pos hp, List.length_cons, ih]
      simp [hp]
    · simp only [if_neg hp, ih]
      simp [hp]

theorem length_dimensionScores (t1 t2 : String) :
    (dimensionScores t1 t2).length = dimensionsMatched t1 t2 := by
  rw [dimensionScores_def]
  unfold dimensionsMatched
  exact length_filterMap_ite entityPatterns _ _

theorem wordOverlap_eq_one_iff (w1 w2 : Finset String)
    (h : wordOverlap w1 w2 = 1) : w1 = w2 := by
  unfold wordOverlap at h
  set i := (w1 ∩ w2).card with hi
  set u := (w1 ∪ w2).card with hu
  have hiu : i ≤ u := Finset.card_le_card Finset.inter_subset_union
  have hpos : (0 : ℕ) < max u 1 := le_max_right _ _
  have heq : (i : ℚ) = (max u 1 : ℕ) := by
    field_simp at h
    exact_mod_cast h
  have heqn : i = max u 1 := by exact_mod_cast heq
  have hu1 : u ≠ 0 := by
    intro hu0
    rw [hu0] at heqn hiu
    omega
  have humax : max u 1 = u := max_eq_left (Nat.pos_of_ne_zero hu1)
  rw [humax] at heqn
  have hsub : w1 ∪ w2 ⊆ w1 ∩ w2 :=
    Finset.eq_of_subset_of_card_le Finset.inter_subset_union
      (le_of_eq heqn.symm) ▸ Finset.Subset.refl _
  have h12 : w1 ⊆ w2 := fun x hx =>
    (Finset.mem_inter.1 (hsub (Finset.mem_union_left _ hx))).2
  have h21 : w2 ⊆ w1 := fun x hx =>
    (Finset.mem_inter.1 (hsub (Finset.mem_union_right _ hx))).1
  exact Finset.Subset.antisymm h12 h21

theorem no_dimension_score (s1 s2 : Story)
    (hdims : dimensionsMatched (storyText s1) (storyText s2) = 0)
    (hwo : 1/2 ≤ wordOverlap (wordsOfStr (storyText s1))
      (wordsOfStr (storyText s2))) :
    calculate_story_similarity s1 s2 =
      (3/10) * wordOverlap (wordsOfStr (storyText s1))
        (wordsOfStr (storyText s2)) ∧
    calculate_story_similarity s1 s2 ≤ 3/10 ∧
    (3/10 ≤ calculate_story_similarity s1 s2 →
      wordsOfStr (storyText s1) = wordsOfStr (storyText s2)) := by
  have hscores : dimensionScores (storyText s1) (storyText s2) = [] := by
    have := length_dimensionScores (storyText s1) (storyText s2)
    rw [hdims] at this
    exact List.eq_nil_of_length_eq_zero this
  set wo := wordOverlap (wordsOfStr (storyText s1))
    (wordsOfStr (storyText s2)) with hwodef
  have hval : calculate_story_similarity s1 s2 = (3/10) * wo := by
    rw [calculate_story_similarity_def]
    rw [if_neg (by rw [← hwodef]; intro ⟨_, hlt⟩; linarith)]
    rw [if_pos hscores, ← hwodef]
    ring
  obtain ⟨hwo0, hwo1⟩ := wordOverlap_bounds (wordsOfStr (storyText s1))
    (wordsOfStr (storyText s2))
  rw [← hwodef] at hwo0 hwo1
  refine ⟨hval, ?_, ?_⟩
  · rw [hval]; linarith
  · intro hge
    rw [hval] at hge
    have hwo_ge : 1 ≤ wo := by linarith
    have : wo = 1 := le_antisymm hwo1 hwo_ge
    exact wordOverlap_eq_one_iff _ _ (hwodef ▸ this)

theorem coherence_gate_zero (s1 s2 : Story)
    (hdims : dimensionsMatched (storyText s1) (storyText s2) < 2)
    (hwo : wordOverlap (wordsOfStr (storyText s1))
      (wordsOfStr (storyText s2)) < 1/2) :
    calculate_story_similarity s1 s2 = 0 := by
  rw [calculate_story_similarity_def, if_pos ⟨hdims, hwo⟩]

theorem entityMapList_eq_filter (k : String × String) :
    ∀ stories : List Story,
      entityMapList k stories = stories.filter fun s => mentionsKey s k := by
  intro stories
  induction stories with
  | nil => rfl
  | cons s ss ih =>
    rw [entityMapList, List.filter_cons, ih]
    by_cases h : mentionsKey s k
    · rw [if_pos h]
      simp [h]
    · rw [if_neg h]
      simp [h]

theorem identify_connections_def (stories : List Story)
    (k : String × String) :
    identify_connections stories k =
      if 1 < (entityMapList k stories).length then
        some ((entityMapList k stories).length, entityMapList k stories)
      else none := rfl

theorem identify_connections_spec (stories : List Story) (t e : String) :
    ((identify_connections stories (t, e)).isSome ↔
      2 ≤ stories.countP fun s => mentionsKey s (t, e)) ∧
    ∀ c l, identify_connections stories (t, e) = some (c, l) →
      l = (stories.filter fun s => mentionsKey s (t, e)) ∧ c = l.length := by
  have hlen : (entityMapList (t, e) stories).length =
      stories.countP fun s => mentionsKey s (t, e) := by
    rw [entityMapList_eq_filter, ← List.countP_eq_length_filter]
  constructor
  · rw [identify_connections_def]
    by_cases h : 1 < (entityMapList (t, e) stories).length
    · rw [if_pos h]
      rw [hlen] at h
      simp only [Option.isSome_some, true_iff]
      omega
    · rw [if_neg h]
      rw [hlen] at h
      simp only [Option.isSome_none, Bool.false_eq_true, false_iff]
      omega
  · intro c l hcl
    rw [identify_connections_def] at hcl
    by_cases h : 1 < (entityMapList (t, e) stories).length
    · rw [if_pos h] at hcl
      have hpair := Option.some_injective _ hcl
      have hc : c = (entityMapList (t, e) stories).length :=
        (congrArg Prod.fst hpair).symm
      have hl : l = entityMapList (t, e) stories :=
        (congrArg Prod.snd hpair).symm
      subst hc
      subst hl
      exact ⟨entityMapList_eq_filter _ _, rfl⟩
    · rw [if_neg h] at hcl
      exact absurd hcl (by simp)

theorem setEnum_take_spec (xs so : List String) (h : IsSetEnum xs so) :
    (so.take 10).Nodup ∧ (so.take 10).length ≤ 10 ∧
    (∀ w ∈ so.take 10, w ∈ xs) ∧
    (xs.dedup.length ≤ 10 → ∀ w ∈ xs, w ∈ so.take 10) := by
  obtain ⟨hnd, hsub, hsup⟩ := h
  refine ⟨?_, ?_, ?_, ?_⟩
  · exact hnd.sublist (List.take_sublist _ _)
  · rw [List.length_take]
    exact min_le_left _ _
  · intro w hw
    exact hsub w (List.take_subset _ _ hw)
  · intro hd w hw
    have hperm : so.Perm xs.dedup := by
      rw [List.perm_ext_iff_of_nodup hnd (List.nodup_dedup xs)]
      intro a
      rw [List.mem_dedup]
      exact ⟨fun ha => hsub a ha, fun ha => hsup a ha⟩
    have hlen : so.length ≤ 10 := hperm.length_eq ▸ hd
    rw [List.take_of_length_le hlen]
    exact hsup w hw

theorem extract_entities_basic_spec (t : String)
    (orgs pers : Option (List String))
    (h : extract_entities_basic t orgs pers) :
    (orgs = none ↔ potentialOrgs t = []) ∧
    (pers = none ↔ potentialPersons t = []) ∧
    (∀ l, orgs = some l → l.Nodup ∧ l.length ≤ 10 ∧
      (∀ w ∈ l, w ∈ potentialOrgs t) ∧
      ((potentialOrgs t).dedup.length ≤ 10 →
        ∀ w ∈ potentialOrgs t, w ∈ l)) ∧
    (∀ l, pers = some l → l.Nodup ∧ l.length ≤ 10 ∧
      (∀ w ∈ l, w ∈ potentialPersons t) ∧
      ((potentialPersons t).dedup.length ≤ 10 →
        ∀ w ∈ potentialPersons t, w ∈ l)) := by
  obtain ⟨so, sp, hso, hsp, ho, hp⟩ := h
  refine ⟨?_, ?_, ?_, ?_⟩
  · constructor
    · intro hn
      by_cases he : potentialOrgs t = []
      · exact he
      · rw [ho, if_pos he] at hn
        exact absurd hn (by simp)
    · intro he
      rw [ho, if_neg (by simp [he])]
  · constructor
    · intro hn
      by_cases he : potentialPersons t = []
      · exact he
      · rw [hp, if_pos he] at hn
        exact absurd hn (by simp)
    · intro he
      rw [hp, if_neg (by simp [he])]
  · intro l hl
    by_cases he : potentialOrgs t = []
    · rw [ho, if_neg (by simp [he])] at hl
      exact absurd hl (by simp)
    · rw [ho, if_pos he] at hl
      obtain rfl := Option.some_injective _ hl
      exact setEnum_take_spec _ _ hso
  · intro l hl
    by_cases he : potentialPersons t = []
    · rw [hp, if_neg (by simp [he])] at hl
      exact absurd hl (by simp)
    · rw [hp, if_pos he] at hl
      obtain rfl := Option.some_injective _ hl
      exact setEnum_take_spec _ _ hsp

/-! ## The claims -/

/-- C1: for every input story list, every threshold and every positive
`max_cluster_size`, the clusters returned by `find_story_clusters` form a
partition of the input — their concatenation is a permutation of the input
list (no story omitted or duplicated) and every cluster is non-empty — and
likewise the index clusters produced by the connected-components builder
`_create_clusters` are non-empty, pairwise disjoint, and cover exactly the
indices of the processed stories. -/
theorem C1_clusters_partition (stories : List Story) (thr : ℚ) (K : ℕ)
    (ps : List (CollStory × PData)) (rels : List (ℕ × ℕ × ℚ))
    (hK : 1 ≤ K)
    (hrels : ∀ r ∈ rels, r.1 < ps.length ∧ r.2.1 < ps.length) :
    ((find_story_clusters stories thr K).flatten.Perm stories ∧
      ∀ c ∈ find_story_clusters stories thr K, c ≠ []) ∧
    ((∀ c ∈ create_clusters ps rels, c.Nonempty) ∧
      List.Pairwise (fun c d : Finset ℕ => ∀ x ∈ c, x ∉ d)
        (create_clusters ps rels) ∧
      ∀ x, (∃ c ∈ create_clusters ps rels, x ∈ c) ↔ x < ps.length) :=
  ⟨find_story_clusters_partition stories thr K hK,
    create_clusters_partition ps rels hrels⟩

/-- Witness for C1 at a concrete input: two stories, threshold `0.3`,
bound `15`; two processed stories with one relationship. -/
theorem C1_clusters_partition_witness :
    ((1 : ℕ) ≤ 15 ∧
      ∀ r ∈ ([(0, 1, (1 : ℚ))] : List (ℕ × ℕ × ℚ)),
        r.1 < ([(sampleCollStory, samplePData),
          (sampleCollStory2, samplePData2)] : List (CollStory × PData)).length ∧
        r.2.1 < ([(sampleCollStory, samplePData),
          (sampleCollStory2, samplePData2)] : List (CollStory × PData)).length) ∧
    (((find_story_clusters [chinaScamStory, chinaRareStory] (3/10)
          15).flatten.Perm [chinaScamStory, chinaRareStory] ∧
      ∀ c ∈ find_story_clusters [chinaScamStory, chinaRareStory] (3/10) 15,
        c ≠ []) ∧
    ((∀ c ∈ create_clusters [(sampleCollStory, samplePData),
        (sampleCollStory2, samplePData2)] [(0, 1, 1)], c.Nonempty) ∧
      List.Pairwise (fun c d : Finset ℕ => ∀ x ∈ c, x ∉ d)
        (create_clusters [(sampleCollStory, samplePData),
          (sampleCollStory2, samplePData2)] [(0, 1, 1)]) ∧
      ∀ x, (∃ c ∈ create_clusters [(sampleCollStory, samplePData),
          (sampleCollStory2, samplePData2)] [(0, 1, 1)], x ∈ c) ↔ x < 2)) :=
  ⟨⟨by decide, by decide⟩,
    C1_clusters_partition [chinaScamStory, chinaRareStory] (3/10) 15
      [(sampleCollStory, samplePData), (sampleCollStory2, samplePData2)]
      [(0, 1, 1)] (by decide) (by decide)⟩

/-- C2 (counterexample): with word overlap exactly `0.5` — which "does not
exceed 0.5" — and no matched dimension, `calculate_story_similarity` does
not return `0`: the source gate only fires for overlap strictly below `0.5`
(`if word_overlap < 0.5`). -/
theorem C2_gate_boundary_counterexample :
    dimensionsMatched (storyText alphaBetaStory) (storyText alphaQuadStory)
        < 2 ∧
    wordOverlap (wordsOfStr (storyText alphaBetaStory))
        (wordsOfStr (storyText alphaQuadStory)) ≤ 1/2 ∧
    calculate_story_similarity alphaBetaStory alphaQuadStory ≠ 0 := by
  refine ⟨by decide, by decide, by decide⟩

/-- C2 (amended): in the entity/regex mode, a pair with fewer than 2 matched
entity-type dimensions whose stop-word-filtered bag-of-words overlap is
strictly below `0.5` scores exactly `0`; at overlap exactly `0.5` the gate
opens.  In particular two stories sharing only a country entity with word
overlap below `0.5` score `0`. -/
theorem C2_coherence_gate_strict (s1 s2 : Story)
    (hdims : dimensionsMatched (storyText s1) (storyText s2) < 2)
    (hwo : wordOverlap (wordsOfStr (storyText s1))
      (wordsOfStr (storyText s2)) < 1/2) :
    calculate_story_similarity s1 s2 = 0 :=
  coherence_gate_zero s1 s2 hdims hwo

/-- Witness for C2 at the spec's own example: the two China headlines share
only the country dimension, have word overlap below `0.5`, and score `0`. -/
theorem C2_coherence_gate_strict_witness :
    (dimensionsMatched (storyText chinaScamStory) (storyText chinaRareStory)
        < 2 ∧
      wordOverlap (wordsOfStr (storyText chinaScamStory))
        (wordsOfStr (storyText chinaRareStory)) < 1/2) ∧
    calculate_story_similarity chinaScamStory chinaRareStory = 0 :=
  ⟨⟨by decide, by decide⟩,
    C2_coherence_gate_strict chinaScamStory chinaRareStory (by decide)
      (by decide)⟩

/-- C3: for every input, threshold and positive bound `K`, no cluster
returned by `find_story_clusters` has more than `K` members, and the
post-pass `_split_large_cluster` only ever yields fragments of size at most
`K`. -/
theorem C3_cluster_size_bound (stories : List Story) (thr : ℚ) (K : ℕ)
    (hK : 1 ≤ K) :
    (∀ c ∈ find_story_clusters stories thr K, c.length ≤ K) ∧
    ∀ (cl : List Story) (thr' : ℚ) (c : List Story),
      c ∈ split_large_cluster calculate_story_similarity cl thr' K →
      c.length ≤ K :=
  ⟨find_story_clusters_sizes stories thr K hK,
    fun cl thr' c hc => split_large_cluster_sizes _ cl thr' K hK c hc⟩

/-- Witness for C3 at a concrete input. -/
theorem C3_cluster_size_bound_witness :
    (1 : ℕ) ≤ 15 ∧
    ((∀ c ∈ find_story_clusters [chinaScamStory, chinaRareStory] (3/10) 15,
        c.length ≤ 15) ∧
      ∀ (cl : List Story) (thr' : ℚ) (c : List Story),
        c ∈ split_large_cluster calculate_story_similarity cl thr' 15 →
        c.length ≤ 15) :=
  ⟨by decide,
    C3_cluster_size_bound [chinaScamStory, chinaRareStory] (3/10) 15
      (by decide)⟩

/-- C5 (counterexample): no configuration validation exists.  With a
threshold of `2` (outside `[0,1]`) and with a non-positive maximum cluster
size `0`, `find_story_clusters` raises nothing and returns a normal cluster
list, contradicting the claimed fatal error before clustering begins. -/
theorem C5_no_validation_counterexample :
    find_story_clusters [alphaBetaStory] 2 15 = [[alphaBetaStory]] ∧
    find_story_clusters [alphaBetaStory] (3/10) 0 = [[alphaBetaStory]] ∧
    find_story_clusters [alphaBetaStory] (-1) 15 = [[alphaBetaStory]] := by
  refine ⟨by decide, by decide, by decide⟩

/-- C5 (amended): the engine performs no validation of its configuration:
for any threshold above `1` (hence outside `[0,1]`) and any positive bound,
`find_story_clusters` completes normally and returns every story as its own
singleton cluster. -/
theorem C5_no_validation (stories : List Story) (thr : ℚ) (K : ℕ)
    (hthr : 1 < thr) (hK : 1 ≤ K) :
    find_story_clusters stories thr K = stories.map fun s => [s] :=
  find_story_clusters_all_singletons stories thr K hthr hK

/-- Witness for C5 at a concrete invalid configuration. -/
theorem C5_no_validation_witness :
    ((1 : ℚ) < 2 ∧ (1 : ℕ) ≤ 15) ∧
    find_story_clusters [chinaScamStory, chinaRareStory] 2 15 =
      [[chinaScamStory], [chinaRareStory]] :=
  ⟨⟨by decide, by decide⟩, by
    rw [C5_no_validation [chinaScamStory, chinaRareStory] 2 15 (by decide)
      (by decide)]
    decide⟩

/-- C4 (counterexample): when `process_story` raises for the only story,
`find_related_stories` does not abort — but the story is dropped entirely and
the returned cluster list is empty, so the story does not end up in any
cluster, contradicting the claimed degraded singleton. -/
theorem C4_failed_story_dropped_counterexample :
    find_related_stories (fun _ => none) simple_similarity (3/10)
      [sampleCollStory] = [] := by decide

/-- C4 (amended): a story whose `process_story` call raises does not abort
the run, but it is omitted from clustering: the returned clusters are
non-empty, pairwise disjoint, and cover exactly the indices of the
successfully processed stories — which are precisely the stories for which
processing succeeded, in input order.  The failing story appears in no
cluster (not as a singleton with empty features). -/
theorem C4_failed_story_dropped (proc : CollStory → Option PData)
    (textSim : String → String → ℚ) (thr : ℚ) (stories : List CollStory) :
    (∀ c ∈ find_related_stories proc textSim thr stories, c.Nonempty) ∧
    List.Pairwise (fun c d : Finset ℕ => ∀ x ∈ c, x ∉ d)
      (find_related_stories proc textSim thr stories) ∧
    (∀ x, (∃ c ∈ find_related_stories proc textSim thr stories, x ∈ c) ↔
      x < (processStories proc stories).length) ∧
    (processStories proc stories).map Prod.fst =
      stories.filter fun s => (proc s).isSome := by
  obtain ⟨p1, p2, p3⟩ := find_related_stories_partition proc textSim thr
    stories
  exact ⟨p1, p2, p3, processStories_map_fst proc stories⟩

/-- C6: both pairwise scores are symmetric — the entity/regex-mode
`calculate_story_similarity` unconditionally, and the weighted general-mode
`_calculate_story_similarity` whenever the injected text-similarity function
is itself symmetric (TF-IDF cosine similarity and the in-repo fallback
`_simple_similarity` both are). -/
theorem C6_similarity_symmetric (textSim : String → String → ℚ)
    (s1 s2 : Story) (d1 d2 : CollStory × PData)
    (hsymm : ∀ a b, textSim a b = textSim b a) :
    calculate_story_similarity s1 s2 = calculate_story_similarity s2 s1 ∧
    correlator_story_similarity textSim d1 d2 =
      correlator_story_similarity textSim d2 d1 :=
  ⟨calculate_story_similarity_comm s1 s2,
    correlator_story_similarity_comm textSim hsymm d1 d2⟩

/-- Witness for C6 with the in-repo fallback `_simple_similarity` as the
text-similarity function, at concrete inputs. -/
theorem C6_similarity_symmetric_witness :
    (∀ a b, simple_similarity a b = simple_similarity b a) ∧
    (calculate_story_similarity chinaScamStory chinaRareStory =
        calculate_story_similarity chinaRareStory chinaScamStory ∧
      correlator_story_similarity simple_similarity
          (sampleCollStory, samplePData) (sampleCollStory2, samplePData2) =
        correlator_story_similarity simple_similarity
          (sampleCollStory2, samplePData2) (sampleCollStory, samplePData)) :=
  ⟨simple_similarity_comm,
    C6_similarity_symmetric simple_similarity chinaScamStory chinaRareStory
      (sampleCollStory, samplePData) (sampleCollStory2, samplePData2)
      simple_similarity_comm⟩

/-- C7: a story with at least one word left after stop-word removal scores
at least the default threshold `0.3` against itself. -/
theorem C7_self_similarity (story : Story)
    (h : wordsOfStr (storyText story) ≠ ∅) :
    3/10 ≤ calculate_story_similarity story story :=
  calculate_story_similarity_self story h

/-- Witness for C7 at a concrete story (its self-score is in fact `1`). -/
theorem C7_self_similarity_witness :
    wordsOfStr (storyText chinaAttackStory) ≠ ∅ ∧
    3/10 ≤ calculate_story_similarity chinaAttackStory chinaAttackStory :=
  ⟨by decide, C7_self_similarity chinaAttackStory (by decide)⟩

/-- C8: the connection index contains an `entity-type:name` key exactly when
the entity is extracted from at least two of the input stories; a retained
key carries the full list of the stories mentioning it (in input order) and
their count. -/
theorem C8_connection_index_threshold (stories : List Story) (t e : String) :
    ((identify_connections stories (t, e)).isSome ↔
      2 ≤ stories.countP fun s => mentionsKey s (t, e)) ∧
    ∀ c l, identify_connections stories (t, e) = some (c, l) →
      l = (stories.filter fun s => mentionsKey s (t, e)) ∧ c = l.length :=
  identify_connections_spec stories t e

/-- Witness for C8: `countries:CHINA` is mentioned by both concrete stories,
so the index retains it with count 2 and both stories. -/
theorem C8_connection_index_threshold_witness :
    identify_connections [chinaScamStory, chinaRareStory]
        ("countries", "CHINA") =
      some (2, [chinaScamStory, chinaRareStory]) ∧
    ([chinaScamStory, chinaRareStory].filter
        fun s => mentionsKey s ("countries", "CHINA")) =
      [chinaScamStory, chinaRareStory] ∧
    2 ≤ ([chinaScamStory, chinaRareStory].countP
        fun s => mentionsKey s ("countries", "CHINA")) ∧
    ((identify_connections [chinaScamStory, chinaRareStory]
        ("countries", "CHINA")).isSome ↔
      2 ≤ ([chinaScamStory, chinaRareStory].countP
        fun s => mentionsKey s ("countries", "CHINA"))) :=
  ⟨by decide, by decide, by decide,
    (C8_connection_index_threshold [chinaScamStory, chinaRareStory]
      "countries" "CHINA").1⟩

/-- C10: with zero matched entity-type dimensions and the coherence gate
opened by word overlap at least `0.5`, the score is exactly `0.3` times the
word overlap, hence at most `0.3`, and it reaches `0.3` only when the two
stop-word-filtered word sets are identical. -/
theorem C10_word_overlap_only_score (s1 s2 : Story)
    (hdims : dimensionsMatched (storyText s1) (storyText s2) = 0)
    (hwo : 1/2 ≤ wordOverlap (wordsOfStr (storyText s1))
      (wordsOfStr (storyText s2))) :
    calculate_story_similarity s1 s2 =
      (3/10) * wordOverlap (wordsOfStr (storyText s1))
        (wordsOfStr (storyText s2)) ∧
    calculate_story_similarity s1 s2 ≤ 3/10 ∧
    (3/10 ≤ calculate_story_similarity s1 s2 →
      wordsOfStr (storyText s1) = wordsOfStr (storyText s2)) :=
  no_dimension_score s1 s2 hdims hwo

/-- Witness for C10 at a concrete entity-free pair with identical word
sets. -/
theorem C10_word_overlap_only_score_witness :
    (dimensionsMatched (storyText alphaBetaStory) (storyText alphaBetaStory)
        = 0 ∧
      1/2 ≤ wordOverlap (wordsOfStr (storyText alphaBetaStory))
        (wordsOfStr (storyText alphaBetaStory))) ∧
    (calculate_story_similarity alphaBetaStory alphaBetaStory =
        (3/10) * wordOverlap (wordsOfStr (storyText alphaBetaStory))
          (wordsOfStr (storyText alphaBetaStory)) ∧
      calculate_story_similarity alphaBetaStory alphaBetaStory ≤ 3/10 ∧
      (3/10 ≤ calculate_story_similarity alphaBetaStory alphaBetaStory →
        wordsOfStr (storyText alphaBetaStory) =
          wordsOfStr (storyText alphaBetaStory))) :=
  ⟨⟨by decide, by decide⟩,
    C10_word_overlap_only_score alphaBetaStory alphaBetaStory (by decide)
      (by decide)⟩

/-- C9 (counterexample): the fallback extractor builds each list as
`list(set(…))[:10]`; the iteration order of a Python `set` is unspecified
(string hashing is randomised), so first-seen order is not guaranteed.  On
`"Alice met Bob"` the output `PERSON` list `["Bob", "Alice"]` is a valid
result of `_extract_entities_basic` but differs from the spec-modelled
first-seen-order deduplication `["Alice", "Bob"]`. -/
theorem C9_first_seen_order_counterexample :
    extract_entities_basic "Alice met Bob" none (some ["Bob", "Alice"]) ∧
    spec_extract_entities_basic "Alice met Bob" =
      (none, some ["Alice", "Bob"]) ∧
    (none, some ["Bob", "Alice"]) ≠
      spec_extract_entities_basic "Alice met Bob" :=
  ⟨⟨[], ["Bob", "Alice"], by decide, by decide, by decide, by decide⟩,
    by decide, by decide⟩

/-- C9 (amended): the fallback extractor classifies capitalised phrases
containing an organisation-suffix keyword as `ORG` and other capitalised
phrases of at most 3 words as `PERSON` (these classifications are the
definitions of `potentialOrgs` / `potentialPersons`); each returned list is
a duplicate-free selection of at most 10 of the matched tokens in an
unspecified order — not necessarily first-seen order — and when a type has
at most 10 distinct tokens the list enumerates exactly them; a key is absent
exactly when no token of its type was found. -/
theorem C9_basic_extractor_output (t : String)
    (orgs pers : Option (List String))
    (h : extract_entities_basic t orgs pers) :
    (orgs = none ↔ potentialOrgs t = []) ∧
    (pers = none ↔ potentialPersons t = []) ∧
    (∀ l, orgs = some l → l.Nodup ∧ l.length ≤ 10 ∧
      (∀ w ∈ l, w ∈ potentialOrgs t) ∧
      ((potentialOrgs t).dedup.length ≤ 10 →
        ∀ w ∈ potentialOrgs t, w ∈ l)) ∧
    (∀ l, pers = some l → l.Nodup ∧ l.length ≤ 10 ∧
      (∀ w ∈ l, w ∈ potentialPersons t) ∧
      ((potentialPersons t).dedup.length ≤ 10 →
        ∀ w ∈ potentialPersons t, w ∈ l)) :=
  extract_entities_basic_spec t orgs pers h

/-- Witness for C9 at a concrete text with one organisation and one
person. -/
theorem C9_basic_extractor_output_witness :
    extract_entities_basic "Acme Corp hired Alice" (some ["Acme Corp"])
        (some ["Alice"]) ∧
    ((some ["Acme Corp"] : Option (List String)) = none ↔
      potentialOrgs "Acme Corp hired Alice" = []) ∧
    (∀ l, (some ["Acme Corp"] : Option (List String)) = some l →
      l.Nodup ∧ l.length ≤ 10 ∧
      (∀ w ∈ l, w ∈ potentialOrgs "Acme Corp hired Alice") ∧
      ((potentialOrgs "Acme Corp hired Alice").dedup.length ≤ 10 →
        ∀ w ∈ potentialOrgs "Acme Corp hired Alice", w ∈ l)) := by
  have hrel : extract_entities_basic "Acme Corp hired Alice"
      (some ["Acme Corp"]) (some ["Alice"]) :=
    ⟨["Acme Corp"], ["Alice"], by decide, by decide, by decide, by decide⟩
  obtain ⟨q1, _, q3, _⟩ := C9_basic_extractor_output "Acme Corp hired Alice"
    (some ["Acme Corp"]) (some ["Alice"]) hrel
  exact ⟨hrel, q1, q3⟩
